import Mathlib

/-!
Verification of the grain-size statistics core in `gsfile.py`
(`BaseGSFile` / `GSFile`).

Numeric model: the Python code computes with IEEE-754 doubles over small
data sets.  We model a double as an exact rational extended with the three
non-finite outcomes that the code's arithmetic can produce (`nan`, `+inf`,
`-inf`); rounding is not modelled (the spec promises no precision beyond
doubles, and every claim is about structure, not rounding).  Signed zero is
not tracked: `0` behaves as numpy's `+0.0`.  Division follows numpy
float64 semantics: `0/0 = nan`, `q/0 = ±inf` for `q ≠ 0`, comparisons with
`nan` are false, `nan != nan`.

Arrays are Lean lists.  The distribution matrix `dists` (numpy shape
M×N, bins × samples) is stored as its list of N sample columns, each of
length M, because every statistics routine iterates `self.dists.T`
(columns); `bins`-indexed rows are recovered positionally.  Python
`IndexError` paths (fewer than 2 bins in `_convert_bins_to_phi_mid`,
no qualifying sample in `_get_depth_bin_edges`) are modelled as `none`.
-/

/-!  Exact rational arithmetic written through `mkRat` so that closed
computations reduce inside the kernel (the `Rat` field operations do not);
the theorems `qadd_eq`, `qmul_eq`, `qneg_eq`, `qdiv_eq` below identify
these with the ordinary field operations of `ℚ`. -/

/-- Rational addition via `mkRat`. -/
def qadd (a b : ℚ) : ℚ := mkRat (a.num * b.den + b.num * a.den) (a.den * b.den)

/-- Rational multiplication via `mkRat`. -/
def qmul (a b : ℚ) : ℚ := mkRat (a.num * b.num) (a.den * b.den)

/-- Rational negation via `mkRat`. -/
def qneg (a : ℚ) : ℚ := mkRat (-a.num) a.den

/-- Rational division via `mkRat` (`qdiv a 0 = 0`, as in Mathlib). -/
def qdiv (a b : ℚ) : ℚ :=
  if b.num < 0 then mkRat (-(a.num * (b.den : Int))) (a.den * b.num.natAbs)
  else mkRat (a.num * (b.den : Int)) (a.den * b.num.natAbs)

inductive NF where
  | nan  : NF
  | pinf : NF
  | ninf : NF
  | val  : ℚ → NF
deriving DecidableEq

namespace NF

/-- IEEE negation. -/
def neg : NF → NF
  | nan => nan
  | pinf => ninf
  | ninf => pinf
  | val q => val (qneg q)

/-- IEEE addition over exact rationals: `nan` propagates, `inf + (-inf) = nan`. -/
def add : NF → NF → NF
  | nan, _ => nan
  | _, nan => nan
  | pinf, ninf => nan
  | ninf, pinf => nan
  | pinf, _ => pinf
  | _, pinf => pinf
  | ninf, _ => ninf
  | _, ninf => ninf
  | val a, val b => val (qadd a b)

/-- IEEE subtraction, `a - b = a + (-b)`. -/
def sub (a b : NF) : NF := add a (neg b)

/-- IEEE multiplication: `nan` propagates, `±inf * 0 = nan`, sign rules otherwise. -/
def mul : NF → NF → NF
  | nan, _ => nan
  | _, nan => nan
  | pinf, pinf => pinf
  | pinf, ninf => ninf
  | ninf, pinf => ninf
  | ninf, ninf => pinf
  | pinf, val b => if 0 < b then pinf else if b < 0 then ninf else nan
  | val a, pinf => if 0 < a then pinf else if a < 0 then ninf else nan
  | ninf, val b => if 0 < b then ninf else if b < 0 then pinf else nan
  | val a, ninf => if 0 < a then ninf else if a < 0 then pinf else nan
  | val a, val b => val (qmul a b)

/-- IEEE division (with `0` read as `+0`): `0/0 = nan`, `q/0 = ±inf` for
`q ≠ 0`, `inf/inf = nan`, finite/inf = 0. -/
def div : NF → NF → NF
  | nan, _ => nan
  | _, nan => nan
  | pinf, pinf => nan
  | pinf, ninf => nan
  | ninf, pinf => nan
  | ninf, ninf => nan
  | val _, pinf => val 0
  | val _, ninf => val 0
  | pinf, val b => if b < 0 then ninf else pinf
  | ninf, val b => if b < 0 then pinf else ninf
  | val a, val b =>
      if b = 0 then (if a = 0 then nan else if 0 < a then pinf else ninf)
      else val (qdiv a b)

/-- `np.isnan`. -/
def isnan : NF → Bool
  | nan => true
  | _ => false

/-- IEEE `<=`: false whenever either side is `nan`. -/
def ble : NF → NF → Bool
  | nan, _ => false
  | _, nan => false
  | ninf, _ => true
  | _, pinf => true
  | pinf, _ => false
  | _, ninf => false
  | val a, val b => decide (a ≤ b)

/-- IEEE `<`: false whenever either side is `nan`. -/
def blt : NF → NF → Bool
  | nan, _ => false
  | _, nan => false
  | pinf, _ => false
  | _, pinf => true
  | ninf, ninf => false
  | ninf, _ => true
  | _, ninf => false
  | val a, val b => decide (a < b)

/-- IEEE `==`: false whenever either side is `nan` (`nan != nan`). -/
def beq : NF → NF → Bool
  | nan, _ => false
  | _, nan => false
  | pinf, pinf => true
  | ninf, ninf => true
  | pinf, _ => false
  | _, pinf => false
  | ninf, _ => false
  | _, ninf => false
  | val a, val b => decide (a = b)

/-- Is this a finite value? -/
def isVal : NF → Bool
  | val _ => true
  | _ => false

/-- Is this a finite nonnegative value? -/
def isNNVal : NF → Bool
  | val q => decide (0 ≤ q)
  | _ => false

/-- The rational carried by a finite value (`0` for non-finite ones). -/
def toQ : NF → ℚ
  | val q => q
  | _ => 0

end NF

/-- numpy sum of a float vector (exact, so summation order is irrelevant). -/
def sumNF (xs : List NF) : NF := xs.foldr NF.add (NF.val 0)

/-- Python-loop indexed map starting at index `n`
(models `for ii in range(...)` writing one column per iteration). -/
def mapIdxFrom {α β : Type} (f : Nat → α → β) : Nat → List α → List β
  | _, [] => []
  | n, a :: as => f n a :: mapIdxFrom f (n + 1) as

/-- Indexed map from index 0. -/
def mapWithIdx {α β : Type} (f : Nat → α → β) (l : List α) : List β :=
  mapIdxFrom f 0 l

/-- numpy boolean-mask indexing `xs[p(mask)]` where the mask array `mask`
runs parallel to `xs` (always allocates a copy in numpy). -/
def maskFilter {α : Type} (xs : List α) (mask : List NF) (p : NF → Bool) : List α :=
  (List.zip xs mask).filterMap (fun c => if p c.2 then some c.1 else none)

/-- numpy boolean-mask indexing by a precomputed boolean vector. -/
def boolMask (xs : List NF) (mask : List Bool) : List NF :=
  (List.zip xs mask).filterMap (fun c => if c.2 then some c.1 else none)

/-- `np.array_equal` on float vectors: equal shapes and elementwise IEEE
equality (hence false whenever a `nan` is present). -/
def listBeqNF : List NF → List NF → Bool
  | [], [] => true
  | x :: xs, y :: ys => NF.beq x y && listBeqNF xs ys
  | _, _ => false

/-- `scipy.stats.nanmean` of one vector: mean of the non-`nan` entries;
an empty or all-`nan` vector yields `0/0 = nan`. -/
def nanmeanRow (xs : List NF) : NF :=
  let vs := xs.filter (fun x => !NF.isnan x)
  NF.div (sumNF vs) (NF.val ((vs.length : ℚ)))

/-- `scipy.stats.nanmean(dists, axis=1)` on a matrix given as its list of
columns, with `m` rows (`m` = bin count of the enclosing record). -/
def nanmeanRows (m : Nat) (cols : List (List NF)) : List NF :=
  (List.range m).map (fun b => nanmeanRow (cols.map (fun c => c.getD b NF.nan)))

/-!  Unit Converter (`BaseGSFile._convert_bins_to_phi{,_mid}`).
`log2` is passed as an abstract function parameter because the exact
binary logarithm is irrational; no claim depends on its values. -/

/-- `BaseGSFile._convert_bins_to_phi` (gsfile.py lines 124-141). -/
def convert_bins_to_phi (log2 : NF → NF) (bin_units : String) (mm_pix : Option ℚ)
    (bins : List NF) : Option (List NF) :=
  if bin_units = "phi" then some bins
  else if bin_units = "phi mid" then none
  else if bin_units = "psi" then none
  else if bin_units = "mm" then some (bins.map (fun x => NF.neg (log2 x)))
  else if bin_units = "pixels" then
    match mm_pix with
    | some r => some (bins.map (fun x => NF.neg (log2 (NF.mul x (NF.val r)))))
    | none => none
  else none

/-- Core of `_convert_bins_to_phi_mid` on available phi edges
(gsfile.py lines 150-152): extrapolated first midpoint, then
`phi[1:] + 0.5*(phi[:-1]-phi[1:])`.  Fewer than two edges raise
`IndexError` in the source; modelled as `none`. -/
def phi_mid_of_edges : List NF → Option (List NF)
  | p0 :: p1 :: rest =>
      some ((NF.add p0 (NF.mul (NF.val (mkRat 1 2)) (NF.sub p0 p1))) ::
        List.zipWith (fun a b => NF.add b (NF.mul (NF.val (mkRat 1 2)) (NF.sub a b)))
          (p0 :: p1 :: rest) (p1 :: rest))
  | _ => none

/-- `BaseGSFile._convert_bins_to_phi_mid` (gsfile.py lines 143-154). -/
def convert_bins_to_phi_mid (bin_units : String) (bins : List NF)
    (bins_phi : Option (List NF)) : Option (List NF) :=
  if bin_units = "phi mid" then some bins
  else
    match bins_phi with
    | some p => phi_mid_of_edges p
    | none => none

/-!  Layer Classifier. -/

/-- The default `BaseGSFile.layer_type_lookup` dictionary: float codes hash
like the integer keys `-1..9`; any other value (including `nan`) is a
`KeyError`, modelled as `none`. -/
def layer_type_lookup : NF → Option String
  | NF.val q =>
      if q = -1 then some "Post-tsunami"
      else if q = 0 then some "Pre-tsunami"
      else if q = 1 then some "Suspension graded"
      else if q = 2 then some "Inverse graded"
      else if q = 3 then some "Normal graded"
      else if q = 4 then some "Massive"
      else if q = 5 then some "Not classified"
      else if q = 6 then some "Not suspension graded"
      else if q = 7 then some "Mud"
      else if q = 8 then some "Mud cap"
      else if q = 9 then some "Unknown"
      else none
  | _ => none

/-- The list comprehension
`[self.layer_type_lookup[x] for x in self.layer_type]` (gsfile.py line
111): aborts with `KeyError` (`none`) as soon as one code is missing. -/
def lookupAll (lk : NF → Option String) : List NF → Option (List String)
  | [] => some []
  | x :: xs =>
      match lk x, lookupAll lk xs with
      | some s, some ss => some (s :: ss)
      | _, _ => none

/-!  Data model. -/

/-- The fields a csv file supplies to `BaseGSFile.__init__` before the
derived attributes are computed (header vectors plus the numeric matrix;
`dcols` is `temp[:,1:]` stored column-wise, `bins` is `temp[:,0]`). -/
structure GSRaw where
  bin_units : String
  mm_pix : Option ℚ
  sample_id : List String
  min_depth : List NF
  max_depth : List NF
  layer : List NF
  layer_type : List NF
  bins : List NF
  dcols : List (List NF)
deriving DecidableEq

/-- The in-memory record after `BaseGSFile.__init__` finished
(gsfile.py lines 110-118). -/
structure GSRecord where
  bin_units : String
  sample_id : List String
  min_depth : List NF
  max_depth : List NF
  layer : List NF
  layer_type : List NF
  layer_type_strings : List String
  bins : List NF
  bins_phi : Option (List NF)
  bins_phi_mid : Option (List NF)
  dists : List (List NF)
  mid_depth : List NF
deriving DecidableEq

/-- The derivation steps of `BaseGSFile.__init__` after row parsing
(gsfile.py lines 110-118): layer label lookup (a missing code is a fatal
`KeyError`, so no record is produced), phi conversions, `mid_depth`. -/
def mkGSRecord (log2 : NF → NF) (lk : NF → Option String) (raw : GSRaw) :
    Option GSRecord :=
  match lookupAll lk raw.layer_type with
  | none => none
  | some strs =>
      let phi := convert_bins_to_phi log2 raw.bin_units raw.mm_pix raw.bins
      some {
        bin_units := raw.bin_units
        sample_id := raw.sample_id
        min_depth := raw.min_depth
        max_depth := raw.max_depth
        layer := raw.layer
        layer_type := raw.layer_type
        layer_type_strings := strs
        bins := raw.bins
        bins_phi := phi
        bins_phi_mid := convert_bins_to_phi_mid raw.bin_units raw.bins phi
        dists := raw.dcols
        mid_depth := List.zipWith (fun a b => NF.div (NF.add a b) (NF.val 2))
          raw.min_depth raw.max_depth }

/-- A placeholder binary logarithm for concrete test records whose units
never reach the `mm`/`pixels` branches. -/
def log2Stub : NF → NF := fun _ => NF.nan

/-!  Statistics Engine (`GSFile`).  Every method takes the record; methods
needing phi midpoints return `none` when `bins_phi_mid` is unavailable
(the Python would raise a `TypeError` multiplying by `None`).  `sqrt` is
passed as an abstract function parameter because square roots of rationals
are irrational; no claim depends on its values. -/

/-- `GSFile.dist_means` (gsfile.py lines 164-171):
`means[ii] = np.sum(dist*self.bins_phi_mid) / dist.sum()` per column. -/
def dist_means (rec : GSRecord) : Option (List NF) :=
  match rec.bins_phi_mid with
  | none => none
  | some bpm =>
      some (rec.dists.map (fun col =>
        NF.div (sumNF (List.zipWith NF.mul col bpm)) (sumNF col)))

/-- `GSFile.dist_devs` (gsfile.py lines 173-181): per-sample deviation
columns `bins_phi_mid - mean[ii]`, paired with the means. -/
def dist_devs (rec : GSRecord) : Option (List (List NF) × List NF) :=
  match dist_means rec, rec.bins_phi_mid with
  | some means, some bpm =>
      some (means.map (fun m => bpm.map (fun b => NF.sub b m)), means)
  | _, _ => none

/-- `GSFile.dist_stds` (gsfile.py lines 183-191):
`sqrt(np.sum(dist*devs[:,ii]**2) / dist.sum())` per column, with the
square root abstracted as `s`. -/
def dist_stds (s : NF → NF) (rec : GSRecord) : Option (List NF) :=
  match dist_devs rec with
  | none => none
  | some (devs, _) =>
      some ((List.zipWith (fun col dv =>
        NF.div (sumNF (List.zipWith (fun d x => NF.mul d (NF.mul x x)) col dv))
          (sumNF col)) rec.dists devs).map s)

/-- `GSFile.dist_moments` (gsfile.py lines 193-207): one pass per column
computing `m2`, then `std = sqrt(m2)`, then `m3`, `m4` from
`(devs/std)**k` (powers written as repeated IEEE multiplication). -/
def dist_moments (s : NF → NF) (rec : GSRecord) :
    Option (List NF × List NF × List NF × List NF) :=
  match dist_devs rec with
  | none => none
  | some (devs, m1) =>
      let ms := List.zipWith (fun col dv =>
        let dist_sum := sumNF col
        let m2 := NF.div
          (sumNF (List.zipWith (fun d x => NF.mul d (NF.mul x x)) col dv)) dist_sum
        let std := s m2
        let m3 := NF.div
          (sumNF (List.zipWith (fun d x =>
            let r := NF.div x std
            NF.mul d (NF.mul r (NF.mul r r))) col dv)) dist_sum
        let m4 := NF.div
          (sumNF (List.zipWith (fun d x =>
            let r := NF.div x std
            NF.mul d (NF.mul (NF.mul r r) (NF.mul r r))) col dv)) dist_sum
        (m2, m3, m4)) rec.dists devs
      some (m1, ms.map (fun t => t.1), ms.map (fun t => t.2.1),
        ms.map (fun t => t.2.2))

/-- `GSFile.bulk_dist` (gsfile.py lines 209-224).  Note two source
peculiarities kept verbatim: the weighted branch triggers on
`len(self.sample_id) > 1` (total sample count, not qualifying count), and
column `ii` of the *filtered* matrix is scaled by
`diffs[ii]` — the thickness of overall sample `ii`, not of the qualifying
sample that column came from — divided by the total thickness over all
samples. -/
def bulk_dist (rec : GSRecord) : List NF :=
  let filtered := maskFilter rec.dists rec.layer (fun L => NF.blt (NF.val 0) L)
  let dists :=
    if (rec.min_depth.any NF.isnan) = false ∧ 1 < rec.sample_id.length then
      let diffs := List.zipWith NF.sub rec.max_depth rec.min_depth
      let len := sumNF diffs
      mapWithIdx (fun ii col =>
        col.map (fun x => NF.div (NF.mul x (diffs.getD ii NF.nan)) len)) filtered
    else filtered
  let bd := nanmeanRows rec.bins.length dists
  let s := sumNF bd
  bd.map (fun x => NF.div (NF.mul (NF.val 100) x) s)

/-- `GSFile.bulk_mean` (gsfile.py lines 226-245): `nan` when phi midpoints
are unavailable; otherwise the weighted mean of `bulk_dist` over
`bins_phi_mid`, optionally masked by
`(gs_min_max[0] >= bins_phi_mid) * (gs_min_max[1] <= bins_phi_mid)`. -/
def bulk_mean (rec : GSRecord) (gs_min_max : Option (NF × NF)) : NF :=
  match rec.bins_phi_mid with
  | none => NF.nan
  | some bpm =>
      let dist := bulk_dist rec
      match gs_min_max with
      | none => NF.div (sumNF (List.zipWith NF.mul dist bpm)) (sumNF dist)
      | some g =>
          let f1 := bpm.map (fun m => NF.ble m g.1)
          let f2 := bpm.map (fun m => NF.ble g.2 m)
          let filtr := List.zipWith (fun a b => a && b) f1 f2
          let dist2 := boolMask dist filtr
          let bins2 := boolMask bpm filtr
          NF.div (sumNF (List.zipWith NF.mul dist2 bins2)) (sumNF dist2)

/-- `GSFile._get_depth_bin_edges` (gsfile.py lines 247-274).  When no
sample passes the layer filter the source raises `IndexError`
(`min_depth[0]` / `max_depth[-1]` on empty arrays); modelled as `none`.
Note the source peculiarity kept verbatim: the mismatch branch allocates
`np.zeros(self.min_depth.size + 1)` — the *unfiltered* sample count plus
one — so filtered-out samples leave zero-filled slots before the final
edge. -/
def get_depth_bin_edges (rec : GSRecord) (min_layer : NF) : Option (List NF) :=
  let min_d := maskFilter rec.min_depth rec.layer (fun L => NF.blt min_layer L)
  let max_d := maskFilter rec.max_depth rec.layer (fun L => NF.blt min_layer L)
  match min_d, max_d.getLast? with
  | [], _ => none
  | _ :: _, none => none
  | m0 :: mtail, some xlast =>
      if listBeqNF mtail max_d.dropLast then
        some ((m0 :: mtail) ++ [xlast])
      else
        let K := (m0 :: mtail).length
        let N := rec.min_depth.length
        let internal := List.zipWith (fun n x =>
          if NF.beq n x then n
          else NF.add n (NF.div (NF.sub x n) (NF.val 2))) mtail max_d.dropLast
        some (m0 :: (internal ++ (List.replicate (N - K) (NF.val 0) ++ [xlast])))

/-!  Spec-side definitions.  Each follows the words of a spec claim (not
the source) so that the source embedding can be compared against it. -/

/-- Modelled from the spec claim C1's words: when `min_depth` is complete
and more than one *qualifying* sample (layer code > 0) exists, each
qualifying column is weighted by its own thickness
`max_depth[i] - min_depth[i]` divided by the total thickness over the
qualifying samples only, then nan-aware column-averaged and rescaled. -/
def bulkDistClaim (rec : GSRecord) : List NF :=
  let qual := (List.zip rec.dists (List.zip rec.layer
      (List.zip rec.min_depth rec.max_depth))).filterMap
    (fun t => if NF.blt (NF.val 0) t.2.1 then some (t.1, t.2.2.1, t.2.2.2) else none)
  let dists :=
    if (rec.min_depth.any NF.isnan) = false ∧ 1 < qual.length then
      let thick := qual.map (fun t => NF.sub t.2.2 t.2.1)
      let total := sumNF thick
      List.zipWith (fun t d => t.1.map (fun x => NF.mul x (NF.div d total)))
        qual thick
    else qual.map (fun t => t.1)
  let bd := nanmeanRows rec.bins.length dists
  let s := sumNF bd
  bd.map (fun x => NF.div (NF.mul (NF.val 100) x) s)

/-- Modelled from the spec claim C4's words: a phi range `[low, high]`
restricts the bulk mean to exactly the bins whose midpoint `m` satisfies
`low ≤ m ≤ high`, both bounds inclusive. -/
def bulkMeanClaim (rec : GSRecord) (gs_min_max : Option (NF × NF)) : NF :=
  match rec.bins_phi_mid with
  | none => NF.nan
  | some bpm =>
      let dist := bulk_dist rec
      match gs_min_max with
      | none => NF.div (sumNF (List.zipWith NF.mul dist bpm)) (sumNF dist)
      | some g =>
          let pairs := (List.zip dist bpm).filter
            (fun p => NF.ble g.1 p.2 && NF.ble p.2 g.2)
          NF.div (sumNF (pairs.map (fun p => NF.mul p.1 p.2)))
            (sumNF (pairs.map (fun p => p.1)))

/-- The amended reading of claim C4: the argument pair is
`(phi of the minimum grain size, phi of the maximum grain size)`, i.e.
`(upper, lower)` phi bound, and the mask keeps the bins with
`gs_min_max[1] ≤ m ≤ gs_min_max[0]`, both bounds inclusive. -/
def bulkMeanAmendedSpec (rec : GSRecord) (gs_min_max : Option (NF × NF)) : NF :=
  match rec.bins_phi_mid with
  | none => NF.nan
  | some bpm =>
      let dist := bulk_dist rec
      match gs_min_max with
      | none => NF.div (sumNF (List.zipWith NF.mul dist bpm)) (sumNF dist)
      | some g =>
          let pairs := (List.zip dist bpm).filter
            (fun p => NF.ble g.2 p.2 && NF.ble p.2 g.1)
          NF.div (sumNF (pairs.map (fun p => NF.mul p.1 p.2)))
            (sumNF (pairs.map (fun p => p.1)))

/-!  Heap model for the frame claim.  numpy arrays live in a store;
`bulk_dist` reads the record's arrays, allocates a fresh copy via boolean
indexing, and mutates only that fresh array in its scaling loop. -/

/-- A store of numpy arrays: matrices (column lists) and vectors. -/
structure Heap where
  mats : List (List (List NF))
  vecs : List (List NF)
deriving DecidableEq

/-- A record whose array-valued fields are references into a `Heap`
(scalar-like fields that `bulk_dist` only measures are kept inline). -/
structure GSRecH where
  dists : Nat
  min_depth : Nat
  max_depth : Nat
  layer : Nat
  sample_id : List String
  bins : List NF
deriving DecidableEq

/-- Dereference a matrix. -/
def Heap.getMat (h : Heap) (i : Nat) : List (List NF) := h.mats.getD i []

/-- Dereference a vector. -/
def Heap.getVec (h : Heap) (i : Nat) : List NF := h.vecs.getD i []

/-- Overwrite a matrix in place. -/
def Heap.setMat (h : Heap) (i : Nat) (m : List (List NF)) : Heap :=
  { h with mats := h.mats.set i m }

/-- One iteration of the scaling loop
`dists[:,ii] = dists[:,ii]*diffs[ii]/length`: read column `ii` of the
matrix, scale it, write it back. -/
def setColScaled (mat : List (List NF)) (ii : Nat) (d len : NF) :
    List (List NF) :=
  mapWithIdx (fun j col =>
    if j = ii then col.map (fun x => NF.div (NF.mul x d) len) else col) mat

/-- `GSFile.bulk_dist` against the heap: boolean indexing
`self.dists[:, self.layer > 0]` allocates a fresh array (appended to the
store), and the weighted branch's loop mutates only that fresh array. -/
def bulkDistH (h : Heap) (r : GSRecH) : Heap × List NF :=
  let minD := h.getVec r.min_depth
  let maxD := h.getVec r.max_depth
  let layer := h.getVec r.layer
  let filtered := maskFilter (h.getMat r.dists) layer (fun L => NF.blt (NF.val 0) L)
  let fresh := h.mats.length
  let h1 : Heap := { h with mats := h.mats ++ [filtered] }
  if (minD.any NF.isnan) = false ∧ 1 < r.sample_id.length then
    let diffs := List.zipWith NF.sub maxD minD
    let len := sumNF diffs
    let h2 := (List.range (h1.getMat fresh).length).foldl (fun hh ii =>
      hh.setMat fresh
        (setColScaled (hh.getMat fresh) ii (diffs.getD ii NF.nan) len)) h1
    let bd := nanmeanRows r.bins.length (h2.getMat fresh)
    let s := sumNF bd
    (h2, bd.map (fun x => NF.div (NF.mul (NF.val 100) x) s))
  else
    let bd := nanmeanRows r.bins.length (h1.getMat fresh)
    let s := sumNF bd
    (h1, bd.map (fun x => NF.div (NF.mul (NF.val 100) x) s))

/-!  Concrete records for counterexamples and witnesses.  Each `rawN` is a
parsed csv content; `recN` is the record `BaseGSFile.__init__` derives
from it (checked by the corresponding theorem). -/

/-- Three samples, the first non-qualifying (`layer = 0`), qualifying
thicknesses 4 and 2 but overall-position thicknesses 1 and 4. -/
def raw1 : GSRaw :=
  { bin_units := "phi"
    mm_pix := none
    sample_id := ["a", "b", "c"]
    min_depth := [NF.val 0, NF.val 0, NF.val 0]
    max_depth := [NF.val 1, NF.val 4, NF.val 2]
    layer := [NF.val 0, NF.val 1, NF.val 1]
    layer_type := [NF.val 0, NF.val 1, NF.val 1]
    bins := [NF.val 1, NF.val 2]
    dcols := [[NF.val 5, NF.val 5], [NF.val 1, NF.val 0], [NF.val 0, NF.val 1]] }

/-- The record built from `raw1`. -/
def rec1 : GSRecord :=
  { bin_units := "phi"
    sample_id := ["a", "b", "c"]
    min_depth := [NF.val 0, NF.val 0, NF.val 0]
    max_depth := [NF.val 1, NF.val 4, NF.val 2]
    layer := [NF.val 0, NF.val 1, NF.val 1]
    layer_type := [NF.val 0, NF.val 1, NF.val 1]
    layer_type_strings := ["Pre-tsunami", "Suspension graded", "Suspension graded"]
    bins := [NF.val 1, NF.val 2]
    bins_phi := some [NF.val 1, NF.val 2]
    bins_phi_mid := some [NF.val (mkRat 1 2), NF.val (mkRat 3 2)]
    dists := [[NF.val 5, NF.val 5], [NF.val 1, NF.val 0], [NF.val 0, NF.val 1]]
    mid_depth := [NF.val (mkRat 1 2), NF.val 2, NF.val 1] }

/-- Three samples, the first filtered out by `layer > 0`, and the two
qualifying depth intervals [0,1], [2,3] leave a gap. -/
def raw2 : GSRaw :=
  { bin_units := "phi"
    mm_pix := none
    sample_id := ["a", "b", "c"]
    min_depth := [NF.val 9, NF.val 0, NF.val 2]
    max_depth := [NF.val 9, NF.val 1, NF.val 3]
    layer := [NF.val 0, NF.val 1, NF.val 1]
    layer_type := [NF.val 0, NF.val 1, NF.val 1]
    bins := [NF.val 1, NF.val 2]
    dcols := [[NF.val 1, NF.val 1], [NF.val 1, NF.val 1], [NF.val 1, NF.val 1]] }

/-- The record built from `raw2`. -/
def rec2 : GSRecord :=
  { bin_units := "phi"
    sample_id := ["a", "b", "c"]
    min_depth := [NF.val 9, NF.val 0, NF.val 2]
    max_depth := [NF.val 9, NF.val 1, NF.val 3]
    layer := [NF.val 0, NF.val 1, NF.val 1]
    layer_type := [NF.val 0, NF.val 1, NF.val 1]
    layer_type_strings := ["Pre-tsunami", "Suspension graded", "Suspension graded"]
    bins := [NF.val 1, NF.val 2]
    bins_phi := some [NF.val 1, NF.val 2]
    bins_phi_mid := some [NF.val (mkRat 1 2), NF.val (mkRat 3 2)]
    dists := [[NF.val 1, NF.val 1], [NF.val 1, NF.val 1], [NF.val 1, NF.val 1]]
    mid_depth := [NF.val 9, NF.val (mkRat 1 2), NF.val (mkRat 5 2)] }

/-- One sample whose `Layer` code (1) differs from its `Layer Type`
code (2). -/
def raw3 : GSRaw :=
  { bin_units := "phi"
    mm_pix := none
    sample_id := ["a"]
    min_depth := [NF.val 0]
    max_depth := [NF.val 1]
    layer := [NF.val 1]
    layer_type := [NF.val 2]
    bins := [NF.val 1, NF.val 2]
    dcols := [[NF.val 1, NF.val 1]] }

/-- The record built from `raw3`. -/
def rec3 : GSRecord :=
  { bin_units := "phi"
    sample_id := ["a"]
    min_depth := [NF.val 0]
    max_depth := [NF.val 1]
    layer := [NF.val 1]
    layer_type := [NF.val 2]
    layer_type_strings := ["Inverse graded"]
    bins := [NF.val 1, NF.val 2]
    bins_phi := some [NF.val 1, NF.val 2]
    bins_phi_mid := some [NF.val (mkRat 1 2), NF.val (mkRat 3 2)]
    dists := [[NF.val 1, NF.val 1]]
    mid_depth := [NF.val (mkRat 1 2)] }

/-- One qualifying sample over phi midpoints 1, 2, 3 with a uniform
distribution. -/
def raw4 : GSRaw :=
  { bin_units := "phi mid"
    mm_pix := none
    sample_id := ["a"]
    min_depth := [NF.val 0]
    max_depth := [NF.val 1]
    layer := [NF.val 1]
    layer_type := [NF.val 1]
    bins := [NF.val 1, NF.val 2, NF.val 3]
    dcols := [[NF.val 1, NF.val 1, NF.val 1]] }

/-- The record built from `raw4`. -/
def rec4 : GSRecord :=
  { bin_units := "phi mid"
    sample_id := ["a"]
    min_depth := [NF.val 0]
    max_depth := [NF.val 1]
    layer := [NF.val 1]
    layer_type := [NF.val 1]
    layer_type_strings := ["Suspension graded"]
    bins := [NF.val 1, NF.val 2, NF.val 3]
    bins_phi := none
    bins_phi_mid := some [NF.val 1, NF.val 2, NF.val 3]
    dists := [[NF.val 1, NF.val 1, NF.val 1]]
    mid_depth := [NF.val (mkRat 1 2)] }

/-- Two qualifying samples with nonzero column sums, but both depth
intervals degenerate (`min = max = 0`), so the weighted branch divides by
a total thickness of zero. -/
def raw6 : GSRaw :=
  { bin_units := "phi"
    mm_pix := none
    sample_id := ["a", "b"]
    min_depth := [NF.val 0, NF.val 0]
    max_depth := [NF.val 0, NF.val 0]
    layer := [NF.val 1, NF.val 1]
    layer_type := [NF.val 1, NF.val 1]
    bins := [NF.val 1, NF.val 2]
    dcols := [[NF.val 1, NF.val 1], [NF.val 1, NF.val 1]] }

/-- The record built from `raw6`. -/
def rec6 : GSRecord :=
  { bin_units := "phi"
    sample_id := ["a", "b"]
    min_depth := [NF.val 0, NF.val 0]
    max_depth := [NF.val 0, NF.val 0]
    layer := [NF.val 1, NF.val 1]
    layer_type := [NF.val 1, NF.val 1]
    layer_type_strings := ["Suspension graded", "Suspension graded"]
    bins := [NF.val 1, NF.val 2]
    bins_phi := some [NF.val 1, NF.val 2]
    bins_phi_mid := some [NF.val (mkRat 1 2), NF.val (mkRat 3 2)]
    dists := [[NF.val 1, NF.val 1], [NF.val 1, NF.val 1]]
    mid_depth := [NF.val 0, NF.val 0] }

/-- A single well-formed qualifying sample (unweighted branch). -/
def rec6w : GSRecord :=
  { bin_units := "phi"
    sample_id := ["a"]
    min_depth := [NF.val 0]
    max_depth := [NF.val 1]
    layer := [NF.val 1]
    layer_type := [NF.val 1]
    layer_type_strings := ["Suspension graded"]
    bins := [NF.val 1, NF.val 2]
    bins_phi := some [NF.val 1, NF.val 2]
    bins_phi_mid := some [NF.val (mkRat 1 2), NF.val (mkRat 3 2)]
    dists := [[NF.val 1, NF.val 1]]
    mid_depth := [NF.val (mkRat 1 2)] }

/-- A settling-velocity (`psi`) file. -/
def raw7 : GSRaw :=
  { bin_units := "psi"
    mm_pix := none
    sample_id := ["a"]
    min_depth := [NF.val 0]
    max_depth := [NF.val 1]
    layer := [NF.val 1]
    layer_type := [NF.val 1]
    bins := [NF.val 1, NF.val 2]
    dcols := [[NF.val 1, NF.val 1]] }

/-- The record built from `raw7`. -/
def rec7 : GSRecord :=
  { bin_units := "psi"
    sample_id := ["a"]
    min_depth := [NF.val 0]
    max_depth := [NF.val 1]
    layer := [NF.val 1]
    layer_type := [NF.val 1]
    layer_type_strings := ["Suspension graded"]
    bins := [NF.val 1, NF.val 2]
    bins_phi := none
    bins_phi_mid := none
    dists := [[NF.val 1, NF.val 1]]
    mid_depth := [NF.val (mkRat 1 2)] }

/-- A one-bin record on which all moment routines are defined. -/
def rec8 : GSRecord :=
  { bin_units := "phi mid"
    sample_id := ["a"]
    min_depth := [NF.val 0]
    max_depth := [NF.val 1]
    layer := [NF.val 1]
    layer_type := [NF.val 1]
    layer_type_strings := ["Suspension graded"]
    bins := [NF.val 0]
    bins_phi := none
    bins_phi_mid := some [NF.val 0]
    dists := [[NF.val 1]]
    mid_depth := [NF.val (mkRat 1 2)] }

/-- One sample whose distribution column sums to zero with a *nonzero*
weighted numerator: `[1, -1]` against midpoints `[1, 2]`. -/
def raw9 : GSRaw :=
  { bin_units := "phi mid"
    mm_pix := none
    sample_id := ["a"]
    min_depth := [NF.val 0]
    max_depth := [NF.val 1]
    layer := [NF.val 1]
    layer_type := [NF.val 1]
    bins := [NF.val 1, NF.val 2]
    dcols := [[NF.val 1, NF.val (mkRat (-1) 1)]] }

/-- The record built from `raw9`. -/
def rec9 : GSRecord :=
  { bin_units := "phi mid"
    sample_id := ["a"]
    min_depth := [NF.val 0]
    max_depth := [NF.val 1]
    layer := [NF.val 1]
    layer_type := [NF.val 1]
    layer_type_strings := ["Suspension graded"]
    bins := [NF.val 1, NF.val 2]
    bins_phi := none
    bins_phi_mid := some [NF.val 1, NF.val 2]
    dists := [[NF.val 1, NF.val (mkRat (-1) 1)]]
    mid_depth := [NF.val (mkRat 1 2)] }

/-- Two samples: an all-zero column and a normal one. -/
def rec9w : GSRecord :=
  { bin_units := "phi mid"
    sample_id := ["a", "b"]
    min_depth := [NF.val 0, NF.val 0]
    max_depth := [NF.val 1, NF.val 1]
    layer := [NF.val 1, NF.val 1]
    layer_type := [NF.val 1, NF.val 1]
    layer_type_strings := ["Suspension graded", "Suspension graded"]
    bins := [NF.val 1, NF.val 2]
    bins_phi := none
    bins_phi_mid := some [NF.val 1, NF.val 2]
    dists := [[NF.val 0, NF.val 0], [NF.val 1, NF.val 1]]
    mid_depth := [NF.val (mkRat 1 2), NF.val (mkRat 1 2)] }

/-- A one-matrix, three-vector heap for the frame witness. -/
def heap10 : Heap :=
  { mats := [[[NF.val 1, NF.val 2]]]
    vecs := [[NF.val 0], [NF.val 1], [NF.val 1]] }

/-- The heap record pointing at `heap10`'s arrays. -/
def rech10 : GSRecH :=
  { dists := 0
    min_depth := 0
    max_depth := 1
    layer := 2
    sample_id := ["a"]
    bins := [NF.val 1, NF.val 2] }

/-!  Bridge lemmas: the `mkRat`-level arithmetic equals the field
arithmetic of `ℚ`. -/

/-- Numerator over denominator recovers the rational. -/
theorem rat_num_eq (a : ℚ) : (a.num : ℚ) = a * a.den := by
  have ha : (a.den : ℚ) ≠ 0 := Nat.cast_ne_zero.mpr a.den_nz
  have h := Rat.num_div_den a
  rw [div_eq_iff ha] at h
  exact h

/-- Evaluation of `mkRat` as a fraction in `ℚ`. -/
theorem mkRat_cast (n : ℤ) (d : ℕ) : mkRat n d = (n : ℚ) / (d : ℚ) := by
  rw [Rat.mkRat_eq_divInt, Rat.divInt_eq_div]
  norm_num

/-- Bridging `qadd` to `+`. -/
theorem qadd_eq (a b : ℚ) : qadd a b = a + b := by
  have ha : (a.den : ℚ) ≠ 0 := Nat.cast_ne_zero.mpr a.den_nz
  have hb : (b.den : ℚ) ≠ 0 := Nat.cast_ne_zero.mpr b.den_nz
  unfold qadd
  rw [mkRat_cast]
  push_cast
  rw [div_eq_iff (mul_ne_zero ha hb), rat_num_eq a, rat_num_eq b]
  ring

/-- Bridging `qmul` to `*`. -/
theorem qmul_eq (a b : ℚ) : qmul a b = a * b := by
  have ha : (a.den : ℚ) ≠ 0 := Nat.cast_ne_zero.mpr a.den_nz
  have hb : (b.den : ℚ) ≠ 0 := Nat.cast_ne_zero.mpr b.den_nz
  unfold qmul
  rw [mkRat_cast]
  push_cast
  rw [div_eq_iff (mul_ne_zero ha hb), rat_num_eq a, rat_num_eq b]
  ring

/-- Bridging `qneg` to unary minus. -/
theorem qneg_eq (a : ℚ) : qneg a = -a := by
  have ha : (a.den : ℚ) ≠ 0 := Nat.cast_ne_zero.mpr a.den_nz
  unfold qneg
  rw [mkRat_cast]
  push_cast
  rw [div_eq_iff ha, rat_num_eq a]
  ring

/-- Bridging `qdiv` to `/`. -/
theorem qdiv_eq (a b : ℚ) : qdiv a b = a / b := by
  have ha : (a.den : ℚ) ≠ 0 := Nat.cast_ne_zero.mpr a.den_nz
  have hb : (b.den : ℚ) ≠ 0 := Nat.cast_ne_zero.mpr b.den_nz
  rcases eq_or_ne b 0 with hb0 | hb0
  · subst hb0
    simp [qdiv, Rat.num_ofNat]
  · have hbn : b.num ≠ 0 := Rat.num_ne_zero.mpr hb0
    have hbq : (b.num : ℚ) ≠ 0 := Int.cast_ne_zero.mpr hbn
    have key : ((a.num : ℚ) * b.den) / ((a.den : ℚ) * b.num) = a / b := by
      field_simp
      rw [rat_num_eq a, rat_num_eq b]
      ring
    unfold qdiv
    split
    · rename_i hneg
      have h2 : ((b.num.natAbs : ℚ)) = -(b.num : ℚ) := by
        rw [Int.cast_natAbs, abs_of_neg hneg]
        push_cast
        ring
      rw [mkRat_cast]
      push_cast [h2]
      rw [mul_neg, neg_div_neg_eq]
      exact key
    · rename_i hpos
      have h2 : ((b.num.natAbs : ℚ)) = (b.num : ℚ) := by
        rw [Int.cast_natAbs, abs_of_nonneg (le_of_not_lt hpos)]
      rw [mkRat_cast]
      push_cast [h2]
      exact key

/-!  Claim theorems. -/

/-- Claim C1 (code bug demonstration).  On `raw1`/`rec1` — first sample
non-qualifying with thickness 1, qualifying samples with thicknesses 4
and 2 — `bulk_dist` weights the two qualifying columns by the thicknesses
of overall samples 0 and 1 (1 and 4) over the total over all samples,
yielding `[20, 80]`, whereas the claimed weighting (each qualifying
sample's own thickness over the qualifying total) yields
`[200/3, 100/3]`.  So the code does not implement the claimed weighting. -/
theorem bulk_dist_weighting_demo :
    mkGSRecord log2Stub layer_type_lookup raw1 = some rec1 ∧
    bulk_dist rec1 = [NF.val 20, NF.val 80] ∧
    bulkDistClaim rec1 = [NF.val (mkRat 200 3), NF.val (mkRat 100 3)] ∧
    bulk_dist rec1 ≠ bulkDistClaim rec1 := by
  refine ⟨by decide, by decide, by decide, by decide⟩

/-- Claim C2 (code bug demonstration).  On `raw2`/`rec2`, filtering with
threshold 0 keeps K = 2 samples whose intervals [0,1], [2,3] leave a gap,
so the mismatch branch runs; it allocates `min_depth.size + 1 = 4` slots,
not K + 1 = 3: the result is `[0, 3/2, 0, 3]` with a zero-filled slot,
although its first and final entries are still the first qualifying
`min_depth` and last qualifying `max_depth`. -/
theorem depth_bin_edges_size_demo :
    mkGSRecord log2Stub layer_type_lookup raw2 = some rec2 ∧
    (maskFilter rec2.min_depth rec2.layer (fun L => NF.blt (NF.val 0) L)).length = 2 ∧
    get_depth_bin_edges rec2 (NF.val 0) =
      some [NF.val 0, NF.val (mkRat 3 2), NF.val 0, NF.val 3] ∧
    ((get_depth_bin_edges rec2 (NF.val 0)).getD []).length ≠ 2 + 1 := by
  refine ⟨by decide, by decide, by decide, by decide⟩

/-- Claim C3 (counterexample).  `rec3` is built from a file whose `Layer`
code is 1 but whose `Layer Type` code is 2: construction succeeds and
`layer_type_strings[0] = "Inverse graded"`, which differs from
`layerLookup[layer[0]] = "Suspension graded"` — the label vector is not
derived from the `layer` field. -/
theorem layer_label_field_counterexample :
    mkGSRecord log2Stub layer_type_lookup raw3 = some rec3 ∧
    some (rec3.layer_type_strings.getD 0 "") ≠
      layer_type_lookup (rec3.layer.getD 0 NF.nan) := by
  refine ⟨by decide, by decide⟩

/-- Claim C4 (counterexample).  On `rec4` (midpoints 1, 2, 3, uniform
distribution) the range argument `[1, 3]` should — per the claim — keep
every bin and give bulk mean 2; the code's mask
`(arg0 >= m) * (arg1 <= m)` instead keeps no bin and returns `nan`. -/
theorem bulk_mean_phi_range_counterexample :
    mkGSRecord log2Stub layer_type_lookup raw4 = some rec4 ∧
    bulkMeanClaim rec4 (some (NF.val 1, NF.val 3)) = NF.val 2 ∧
    bulk_mean rec4 (some (NF.val 1, NF.val 3)) = NF.nan ∧
    bulk_mean rec4 (some (NF.val 1, NF.val 3)) ≠
      bulkMeanClaim rec4 (some (NF.val 1, NF.val 3)) := by
  refine ⟨by decide, by decide, by decide, by decide⟩

/-- Claim C6 (counterexample).  `rec6` has two qualifying samples, each
with total weight 2 ≠ 0, but both depth intervals are degenerate
(`min = max`), so the weighted branch computes `1*0/0 = nan` everywhere
and the returned vector sums to `nan`, not 100. -/
theorem bulk_dist_sum100_counterexample :
    mkGSRecord log2Stub layer_type_lookup raw6 = some rec6 ∧
    NF.blt (NF.val 0) (rec6.layer.getD 0 NF.nan) = true ∧
    sumNF (rec6.dists.getD 0 []) = NF.val 2 ∧
    sumNF (bulk_dist rec6) = NF.nan ∧
    NF.nan ≠ NF.val 100 := by
  refine ⟨by decide, by decide, by decide, by decide, by decide⟩

/-- Claim C9 (counterexample).  `rec9`'s single column `[1, -1]` sums to
zero but has weighted numerator `1*1 + (-1)*2 = -1 ≠ 0`, so numpy float
division gives `-inf`, not `nan`: `dist_means` succeeds but the entry is
`-inf`. -/
theorem dist_means_zero_sum_counterexample :
    mkGSRecord log2Stub layer_type_lookup raw9 = some rec9 ∧
    sumNF (rec9.dists.getD 0 []) = NF.val 0 ∧
    dist_means rec9 = some [NF.ninf] ∧
    NF.ninf ≠ NF.nan := by
  refine ⟨by decide, by decide, by decide, by decide⟩

/-- Pointwise evaluation of `List.zipWith` through `getD`, in range. -/
theorem getD_zipWith (f : NF → NF → NF) :
    ∀ (as bs : List NF) (n : ℕ), n < as.length → n < bs.length →
      (List.zipWith f as bs).getD n NF.nan = f (as.getD n NF.nan) (bs.getD n NF.nan)
  | a :: as, b :: bs, 0, _, _ => rfl
  | a :: as, b :: bs, n + 1, h1, h2 =>
      getD_zipWith f as bs n (Nat.lt_of_succ_lt_succ h1) (Nat.lt_of_succ_lt_succ h2)

/-- Claim C5 (confirmed).  For every available phi-edge vector of length
at least 2, `_convert_bins_to_phi_mid` returns a vector of the same
length whose entry 0 is `phi[0] + 0.5*(phi[0]-phi[1])` and whose entry
`i` (for `1 ≤ i < M`) is `phi[i] + 0.5*(phi[i-1]-phi[i])`; in particular
on `[1, 2, 3, 4]` it yields `[0.5, 1.5, 2.5, 3.5]`. -/
theorem convert_bins_to_phi_mid_formula (u : String) (bins p : List NF)
    (hu : ¬ u = "phi mid") (hp : 2 ≤ p.length) :
    (convert_bins_to_phi_mid u bins (some p)).isSome = true ∧
    ((convert_bins_to_phi_mid u bins (some p)).getD []).length = p.length ∧
    ((convert_bins_to_phi_mid u bins (some p)).getD []).getD 0 NF.nan =
      NF.add (p.getD 0 NF.nan)
        (NF.mul (NF.val (mkRat 1 2)) (NF.sub (p.getD 0 NF.nan) (p.getD 1 NF.nan))) ∧
    (∀ i, 1 ≤ i → i < p.length →
      ((convert_bins_to_phi_mid u bins (some p)).getD []).getD i NF.nan =
        NF.add (p.getD i NF.nan)
          (NF.mul (NF.val (mkRat 1 2)) (NF.sub (p.getD (i-1) NF.nan) (p.getD i NF.nan)))) ∧
    phi_mid_of_edges [NF.val 1, NF.val 2, NF.val 3, NF.val 4] =
      some [NF.val (mkRat 1 2), NF.val (mkRat 3 2), NF.val (mkRat 5 2), NF.val (mkRat 7 2)] := by
  match p, hp with
  | p0 :: p1 :: rest, _ =>
    simp only [convert_bins_to_phi_mid, if_neg hu, phi_mid_of_edges, Option.getD_some,
      Option.isSome_some]
    refine ⟨trivial, ?_, rfl, ?_, by decide⟩
    · simp [List.length_zipWith]
    · intro i h1 h2
      match i, h1 with
      | k + 1, _ =>
        have hk1 : k < (p0 :: p1 :: rest).length := Nat.lt_of_succ_lt h2
        have hk2 : k < (p1 :: rest).length := Nat.lt_of_succ_lt_succ h2
        calc ((NF.add p0 (NF.mul (NF.val (mkRat 1 2)) (NF.sub p0 p1))) ::
              List.zipWith (fun a b => NF.add b (NF.mul (NF.val (mkRat 1 2)) (NF.sub a b)))
                (p0 :: p1 :: rest) (p1 :: rest)).getD (k + 1) NF.nan
            = (List.zipWith (fun a b => NF.add b (NF.mul (NF.val (mkRat 1 2)) (NF.sub a b)))
                (p0 :: p1 :: rest) (p1 :: rest)).getD k NF.nan := rfl
          _ = NF.add ((p1 :: rest).getD k NF.nan)
                (NF.mul (NF.val (mkRat 1 2))
                  (NF.sub ((p0 :: p1 :: rest).getD k NF.nan) ((p1 :: rest).getD k NF.nan))) :=
              getD_zipWith _ _ _ k hk1 hk2
          _ = NF.add ((p0 :: p1 :: rest).getD (k + 1) NF.nan)
                (NF.mul (NF.val (mkRat 1 2))
                  (NF.sub ((p0 :: p1 :: rest).getD (k + 1 - 1) NF.nan)
                    ((p0 :: p1 :: rest).getD (k + 1) NF.nan))) := rfl

/-- Witness for C5 at the phi edges `[1, 2, 3, 4]`, midpoint index 1. -/
theorem convert_bins_to_phi_mid_formula_witness :
    ((convert_bins_to_phi_mid "phi" [] (some [NF.val 1, NF.val 2, NF.val 3, NF.val 4])).getD
        []).getD 1 NF.nan =
      NF.add (NF.val 2) (NF.mul (NF.val (mkRat 1 2)) (NF.sub (NF.val 1) (NF.val 2))) :=
  (convert_bins_to_phi_mid_formula "phi" [] [NF.val 1, NF.val 2, NF.val 3, NF.val 4]
    (by decide) (by decide)).2.2.2.1 1 (by decide) (by decide)

/-- Claim C7 (confirmed).  Every record constructed with
`bin_units = "psi"` has both `bins_phi` and `bins_phi_mid` unavailable,
and `bulk_mean` returns `nan` on it for every range argument, regardless
of the distribution matrix. -/
theorem psi_record_stats_unavailable (log2 : NF → NF) (lk : NF → Option String)
    (raw : GSRaw) (rec : GSRecord) (g : Option (NF × NF))
    (hu : raw.bin_units = "psi") (h : mkGSRecord log2 lk raw = some rec) :
    rec.bins_phi = none ∧ rec.bins_phi_mid = none ∧ bulk_mean rec g = NF.nan := by
  unfold mkGSRecord at h
  cases hlk : lookupAll lk raw.layer_type with
  | none => rw [hlk] at h; exact absurd h (by simp)
  | some strs =>
    rw [hlk] at h
    simp only [Option.some.injEq] at h
    have hphi : convert_bins_to_phi log2 raw.bin_units raw.mm_pix raw.bins = none := by
      rw [hu]; rfl
    have hmid : convert_bins_to_phi_mid raw.bin_units raw.bins
        (convert_bins_to_phi log2 raw.bin_units raw.mm_pix raw.bins) = none := by
      rw [hphi, hu]; rfl
    have h1 : rec.bins_phi = none := by rw [← h]; exact hphi
    have h2 : rec.bins_phi_mid = none := by rw [← h]; exact hmid
    refine ⟨h1, h2, ?_⟩
    unfold bulk_mean
    rw [h2]

/-- Witness for C7 on the concrete psi record `rec7`. -/
theorem psi_record_stats_unavailable_witness :
    rec7.bins_phi = none ∧ rec7.bins_phi_mid = none ∧ bulk_mean rec7 none = NF.nan :=
  psi_record_stats_unavailable log2Stub layer_type_lookup raw7 rec7 none rfl (by decide)

/-- Claim C8 (confirmed).  Whenever both are defined, `dist_stds` equals
the square root (the same abstracted `s`) applied elementwise to the
variance component of `dist_moments`, for every sample. -/
theorem dist_stds_match_moments (s : NF → NF) (rec : GSRecord)
    (st m1 m2 m3 m4 : List NF)
    (h1 : dist_stds s rec = some st)
    (h2 : dist_moments s rec = some (m1, m2, m3, m4)) :
    st = m2.map s := by
  cases hdv : dist_devs rec with
  | none =>
    rw [dist_stds, hdv] at h1
    exact absurd h1 (by simp)
  | some p =>
    obtain ⟨devs, means⟩ := p
    rw [dist_stds, hdv] at h1
    rw [dist_moments, hdv] at h2
    simp only [Option.some.injEq, Prod.mk.injEq] at h1 h2
    obtain ⟨hm1, hm2, hm3, hm4⟩ := h2
    rw [← h1, ← hm2, List.map_map, List.map_zipWith, List.map_zipWith]
    rfl

/-- Witness for C8 on `rec8` with the identity in place of `sqrt`. -/
theorem dist_stds_match_moments_witness :
    [NF.val 0] = [NF.val 0].map (fun x => x) :=
  dist_stds_match_moments (fun x => x) rec8 [NF.val 0] [NF.val 0] [NF.val 0]
    [NF.nan] [NF.nan] (by decide) (by decide)

/-- Failure characterization of the layer-label comprehension. -/
theorem lookupAll_none_iff (lk : NF → Option String) :
    ∀ l : List NF,
      (lookupAll lk l = none ↔ ∃ i, i < l.length ∧ lk (l.getD i NF.nan) = none)
  | [] => by
      simp [lookupAll]
  | x :: xs => by
      constructor
      · intro h
        unfold lookupAll at h
        cases hx : lk x with
        | none => exact ⟨0, Nat.succ_pos _, hx⟩
        | some s =>
          rw [hx] at h
          cases hxs : lookupAll lk xs with
          | none =>
            obtain ⟨i, hi, hnone⟩ := (lookupAll_none_iff lk xs).mp hxs
            exact ⟨i + 1, Nat.succ_lt_succ hi, hnone⟩
          | some ss => rw [hxs] at h; exact absurd h (by simp)
      · rintro ⟨i, hi, hnone⟩
        unfold lookupAll
        cases i with
        | zero =>
          rw [show (x :: xs).getD 0 NF.nan = x from rfl] at hnone
          rw [hnone]
        | succ k =>
          have : lookupAll lk xs = none :=
            (lookupAll_none_iff lk xs).mpr ⟨k, Nat.lt_of_succ_lt_succ hi, hnone⟩
          rw [this]
          cases lk x <;> rfl

/-- Success characterization of the layer-label comprehension. -/
theorem lookupAll_some_spec (lk : NF → Option String) :
    ∀ (l : List NF) (ss : List String), lookupAll lk l = some ss →
      ss.length = l.length ∧
      ∀ i, i < l.length → some (ss.getD i "") = lk (l.getD i NF.nan)
  | [], ss, h => by
      simp [lookupAll] at h
      subst h
      exact ⟨rfl, fun i hi => absurd hi (Nat.not_lt_zero i)⟩
  | x :: xs, ss, h => by
      unfold lookupAll at h
      cases hx : lk x with
      | none => rw [hx] at h; exact absurd h (by simp)
      | some s =>
        rw [hx] at h
        cases hxs : lookupAll lk xs with
        | none => rw [hxs] at h; exact absurd h (by simp)
        | some ss2 =>
          rw [hxs] at h
          simp only [Option.some.injEq] at h
          obtain ⟨hlen, hspec⟩ := lookupAll_some_spec lk xs ss2 hxs
          subst h
          refine ⟨by simp [hlen], ?_⟩
          intro i hi
          cases i with
          | zero => exact hx.symm
          | succ k => exact hspec k (Nat.lt_of_succ_lt_succ hi)

/-- Claim C3 (amended).  Record construction fails with a lookup error
exactly when some sample's `layer_type` code (the `Layer Type` field, not
the `Layer` field the claim names) has no entry in the configured table,
and on success `layer_type_strings[i] = layerLookup[layer_type[i]]` for
every sample index. -/
theorem layer_label_lookup_amended (log2 : NF → NF) (lk : NF → Option String)
    (raw : GSRaw) :
    ((mkGSRecord log2 lk raw = none) ↔
      ∃ i, i < raw.layer_type.length ∧ lk (raw.layer_type.getD i NF.nan) = none) ∧
    (∀ rec, mkGSRecord log2 lk raw = some rec →
      rec.layer_type_strings.length = raw.layer_type.length ∧
      ∀ i, i < raw.layer_type.length →
        some (rec.layer_type_strings.getD i "") = lk (raw.layer_type.getD i NF.nan)) := by
  cases hlk : lookupAll lk raw.layer_type with
  | none =>
    constructor
    · rw [show mkGSRecord log2 lk raw = none by unfold mkGSRecord; rw [hlk]]
      simp only [true_iff]
      exact (lookupAll_none_iff lk raw.layer_type).mp hlk
    · intro rec h
      unfold mkGSRecord at h
      rw [hlk] at h
      exact absurd h (by simp)
  | some strs =>
    constructor
    · constructor
      · intro h
        unfold mkGSRecord at h
        rw [hlk] at h
        exact absurd h (by simp)
      · intro hex
        exact absurd hlk (by rw [(lookupAll_none_iff lk raw.layer_type).mpr hex]; simp)
    · intro rec h
      unfold mkGSRecord at h
      rw [hlk] at h
      simp only [Option.some.injEq] at h
      have hstr : rec.layer_type_strings = strs := by rw [← h]
      rw [hstr]
      exact lookupAll_some_spec lk raw.layer_type strs hlk

/-- Witness for the amended C3 on `raw3`/`rec3` at sample 0. -/
theorem layer_label_lookup_amended_witness :
    some (rec3.layer_type_strings.getD 0 "") =
      layer_type_lookup (raw3.layer_type.getD 0 NF.nan) :=
  ((layer_label_lookup_amended log2Stub layer_type_lookup raw3).2 rec3
    (by decide)).2 0 (by decide)

/-- Pointwise evaluation of `List.map` through `getD`, in range. -/
theorem getD_map {α β : Type} (f : α → β) :
    ∀ (l : List α) (n : ℕ), n < l.length → ∀ (d : β) (d2 : α),
      (l.map f).getD n d = f (l.getD n d2)
  | _ :: _, 0, _, _, _ => rfl
  | _ :: as, n + 1, h, d, d2 => getD_map f as n (Nat.lt_of_succ_lt_succ h) d d2

/-- Adding to `nan` on the left yields `nan`. -/
theorem NF.nan_add (x : NF) : NF.add NF.nan x = NF.nan := by cases x <;> rfl

/-- Adding to `nan` on the right yields `nan`. -/
theorem NF.add_nan (x : NF) : NF.add x NF.nan = NF.nan := by cases x <;> rfl

/-- numpy sum of an all-zero vector is zero. -/
theorem sumNF_zero_col : ∀ col : List NF, (∀ x ∈ col, x = NF.val 0) →
    sumNF col = NF.val 0
  | [], _ => rfl
  | c :: cs, h => by
      have hc : c = NF.val 0 := h c (List.mem_cons_self c cs)
      subst hc
      have ih := sumNF_zero_col cs (fun x hx => h x (List.mem_cons_of_mem _ hx))
      show NF.add (NF.val 0) (sumNF cs) = NF.val 0
      rw [ih]
      show NF.val (qadd 0 0) = NF.val 0
      simp [qadd_eq]

/-- Weighting an all-zero column by arbitrary midpoints sums to `0` or
`nan` (`0 * inf` and `0 * nan` are `nan`). -/
theorem sum_zipWith_zero : ∀ (col bpm : List NF), (∀ x ∈ col, x = NF.val 0) →
    sumNF (List.zipWith NF.mul col bpm) = NF.val 0 ∨
    sumNF (List.zipWith NF.mul col bpm) = NF.nan
  | [], _, _ => Or.inl rfl
  | _ :: _, [], _ => Or.inl rfl
  | c :: cs, b :: bs, h => by
      have hc : c = NF.val 0 := h c (List.mem_cons_self c cs)
      subst hc
      have ih := sum_zipWith_zero cs bs (fun x hx => h x (List.mem_cons_of_mem _ hx))
      show NF.add (NF.mul (NF.val 0) b) (sumNF (List.zipWith NF.mul cs bs)) = NF.val 0 ∨
        NF.add (NF.mul (NF.val 0) b) (sumNF (List.zipWith NF.mul cs bs)) = NF.nan
      cases b with
      | nan => right; rw [show NF.mul (NF.val 0) NF.nan = NF.nan from rfl, NF.nan_add]
      | pinf =>
        right
        rw [show NF.mul (NF.val 0) NF.pinf = NF.nan by norm_num [NF.mul], NF.nan_add]
      | ninf =>
        right
        rw [show NF.mul (NF.val 0) NF.ninf = NF.nan by norm_num [NF.mul], NF.nan_add]
      | val q =>
        have hm : NF.mul (NF.val 0) (NF.val q) = NF.val 0 := by
          show NF.val (qmul 0 q) = NF.val 0
          simp [qmul_eq]
        rw [hm]
        cases ih with
        | inl hz =>
          left
          rw [hz]
          show NF.val (qadd 0 0) = NF.val 0
          simp [qadd_eq]
        | inr hn => right; rw [hn, NF.add_nan]

/-- Claim C9 (amended).  `dist_means` never raises: on a record with
available midpoints it returns a vector, an all-zero distribution column
(zero-sum with zero numerator, the degenerate case the spec describes)
yields `nan` for that sample by IEEE `0/0` (a zero-sum column with a
nonzero weighted numerator yields `±inf` instead, see the
counterexample), and each sample's entry depends only on its own column
and the midpoints, leaving other samples unaffected. -/
theorem dist_means_zero_sum_amended (rec : GSRecord) (bpm : List NF) (j : ℕ)
    (h1 : rec.bins_phi_mid = some bpm)
    (h2 : ∀ x ∈ rec.dists.getD j [], x = NF.val 0)
    (h3 : j < rec.dists.length) :
    (dist_means rec).isSome = true ∧
    ((dist_means rec).getD []).getD j (NF.val 0) = NF.nan ∧
    ∀ (rec2 : GSRecord) (k : ℕ), rec2.bins_phi_mid = some bpm →
      rec2.dists.getD k [] = rec.dists.getD k [] →
      k < rec2.dists.length → k < rec.dists.length →
      ((dist_means rec2).getD []).getD k (NF.val 0) =
        ((dist_means rec).getD []).getD k (NF.val 0) := by
  have hmeans : dist_means rec =
      some (rec.dists.map (fun col =>
        NF.div (sumNF (List.zipWith NF.mul col bpm)) (sumNF col))) := by
    rw [dist_means, h1]
  refine ⟨by rw [hmeans]; rfl, ?_, ?_⟩
  · rw [hmeans]
    show (rec.dists.map _).getD j (NF.val 0) = NF.nan
    rw [getD_map _ rec.dists j h3 (NF.val 0) []]
    rw [sumNF_zero_col _ h2]
    rcases sum_zipWith_zero (rec.dists.getD j []) bpm h2 with hz | hn
    · rw [hz]; decide
    · rw [hn]; rfl
  · intro rec2 k h1b heq hk2 hk
    have hmeans2 : dist_means rec2 =
        some (rec2.dists.map (fun col =>
          NF.div (sumNF (List.zipWith NF.mul col bpm)) (sumNF col))) := by
      rw [dist_means, h1b]
    rw [hmeans, hmeans2]
    show (rec2.dists.map _).getD k (NF.val 0) = (rec.dists.map _).getD k (NF.val 0)
    rw [getD_map _ rec2.dists k hk2 (NF.val 0) [], getD_map _ rec.dists k hk (NF.val 0) [],
      heq]

/-- Witness for the amended C9 on `rec9w`, whose column 0 is all zeros. -/
theorem dist_means_zero_sum_amended_witness :
    ((dist_means rec9w).getD []).getD 0 (NF.val 0) = NF.nan :=
  (dist_means_zero_sum_amended rec9w [NF.val 1, NF.val 2] 0 (by decide) (by decide)
    (by decide)).2.1

/-- Fusing numpy's elementwise boolean product of two comparison masks. -/
theorem zipWith_and_maps (f g : NF → Bool) :
    ∀ l : List NF,
      List.zipWith (fun a b => a && b) (l.map f) (l.map g) =
        l.map (fun x => f x && g x)
  | [] => rfl
  | x :: xs => by
      simp only [List.map_cons, List.zipWith_cons_cons]
      rw [zipWith_and_maps f g xs]

/-- Unfolding of boolean-mask indexing on a cons cell. -/
theorem boolMask_cons (x : NF) (xs : List NF) (c : Bool) (cs : List Bool) :
    boolMask (x :: xs) (c :: cs) =
      if c then x :: boolMask xs cs else boolMask xs cs := by
  cases c <;> rfl

/-- Masking the data vector equals filtering the zipped pairs. -/
theorem boolMask_map_fst (p : NF → Bool) :
    ∀ (dist bpm : List NF), dist.length = bpm.length →
      boolMask dist (bpm.map p) =
        ((List.zip dist bpm).filter (fun q => p q.2)).map (fun q => q.1)
  | [], [], _ => rfl
  | [], _ :: _, h => by simp at h
  | _ :: _, [], h => by simp at h
  | d :: ds, b :: bs, h => by
      have hlen : ds.length = bs.length := by simpa using h
      have ih := boolMask_map_fst p ds bs hlen
      show boolMask (d :: ds) (p b :: bs.map p) = _
      rw [boolMask_cons,
        show List.zip (d :: ds) (b :: bs) = (d, b) :: List.zip ds bs from rfl,
        List.filter_cons]
      cases hp : p b with
      | true => simp [hp, ih]
      | false => simp [hp, ih]

/-- Masking the midpoint vector equals filtering the zipped pairs. -/
theorem boolMask_map_snd (p : NF → Bool) :
    ∀ (dist bpm : List NF), dist.length = bpm.length →
      boolMask bpm (bpm.map p) =
        ((List.zip dist bpm).filter (fun q => p q.2)).map (fun q => q.2)
  | [], [], _ => rfl
  | [], _ :: _, h => by simp at h
  | _ :: _, [], h => by simp at h
  | d :: ds, b :: bs, h => by
      have hlen : ds.length = bs.length := by simpa using h
      have ih := boolMask_map_snd p ds bs hlen
      show boolMask (b :: bs) (p b :: bs.map p) = _
      rw [boolMask_cons,
        show List.zip (d :: ds) (b :: bs) = (d, b) :: List.zip ds bs from rfl,
        List.filter_cons]
      cases hp : p b with
      | true => simp [hp, ih]
      | false => simp [hp, ih]

/-- Elementwise product of the two projections of a pair list. -/
theorem zipWith_mul_pairs :
    ∀ L : List (NF × NF),
      List.zipWith NF.mul (L.map (fun q => q.1)) (L.map (fun q => q.2)) =
        L.map (fun q => NF.mul q.1 q.2)
  | [] => rfl
  | x :: xs => by
      simp only [List.map_cons, List.zipWith_cons_cons]
      rw [zipWith_mul_pairs xs]

/-- Output length of `bulk_dist` is the record's bin count. -/
theorem bulk_dist_length (rec : GSRecord) :
    (bulk_dist rec).length = rec.bins.length := by
  simp [bulk_dist, nanmeanRows]

/-- Claim C4 (amended).  `bulk_mean`'s range argument is
`(phi of minimum grain size, phi of maximum grain size)` — an
`(upper, lower)` pair of phi bounds, matching its docstring — and the
computation is restricted to exactly the bins whose midpoint `m`
satisfies `gs_min_max[1] ≤ m ≤ gs_min_max[0]`, both bounds inclusive;
when no bin qualifies the result is `nan` from `0/0`. -/
theorem bulk_mean_phi_range_amended (rec : GSRecord) (bpm : List NF) (g : NF × NF)
    (h1 : rec.bins_phi_mid = some bpm)
    (h2 : rec.bins.length = bpm.length) :
    bulk_mean rec (some g) = bulkMeanAmendedSpec rec (some g) ∧
    ((∀ m ∈ bpm, ¬(NF.ble g.2 m = true ∧ NF.ble m g.1 = true)) →
      bulk_mean rec (some g) = NF.nan) := by
  have hlen : (bulk_dist rec).length = bpm.length := by
    rw [bulk_dist_length, h2]
  have hmask :
      List.zipWith (fun a b => a && b) (bpm.map (fun m => NF.ble m g.1))
        (bpm.map (fun m => NF.ble g.2 m)) =
      bpm.map (fun m => NF.ble m g.1 && NF.ble g.2 m) :=
    zipWith_and_maps _ _ bpm
  have hfst := boolMask_map_fst (fun m => NF.ble m g.1 && NF.ble g.2 m)
    (bulk_dist rec) bpm hlen
  have hsnd := boolMask_map_snd (fun m => NF.ble m g.1 && NF.ble g.2 m)
    (bulk_dist rec) bpm hlen
  have hpred : ((List.zip (bulk_dist rec) bpm).filter
        (fun q => NF.ble q.2 g.1 && NF.ble g.2 q.2)) =
      ((List.zip (bulk_dist rec) bpm).filter
        (fun q => NF.ble g.2 q.2 && NF.ble q.2 g.1)) := by
    apply List.filter_congr
    intro q _
    exact Bool.and_comm _ _
  constructor
  · rw [bulk_mean, bulkMeanAmendedSpec, h1]
    simp only [hmask, hfst, hsnd, zipWith_mul_pairs, hpred]
  · intro hnone
    have hemp : ((List.zip (bulk_dist rec) bpm).filter
        (fun q => NF.ble q.2 g.1 && NF.ble g.2 q.2)) = [] := by
      apply List.filter_eq_nil.mpr
      intro q hq
      have hm : q.2 ∈ bpm := (List.of_mem_zip hq).2
      have := hnone q.2 hm
      cases hb1 : NF.ble g.2 q.2 <;> cases hb2 : NF.ble q.2 g.1 <;> simp_all
    rw [bulk_mean, h1]
    simp only [hmask, hfst, hsnd, zipWith_mul_pairs, hemp]
    rfl

/-- Witness for the amended C4 on `rec4` with bounds `(3, 1)`. -/
theorem bulk_mean_phi_range_amended_witness :
    bulk_mean rec4 (some (NF.val 3, NF.val 1)) =
      bulkMeanAmendedSpec rec4 (some (NF.val 3, NF.val 1)) :=
  (bulk_mean_phi_range_amended rec4 [NF.val 1, NF.val 2, NF.val 3]
    (NF.val 3, NF.val 1) (by decide) (by decide)).1

/-- Writing one store slot leaves every other slot unchanged. -/
theorem getD_set_ne {α : Type} (d a : α) :
    ∀ (l : List α) (n i : ℕ), i ≠ n → (l.set n a).getD i d = l.getD i d
  | [], _, _, _ => rfl
  | _ :: _, 0, 0, h => absurd rfl h
  | _ :: _, 0, _ + 1, _ => rfl
  | _ :: _, _ + 1, 0, _ => rfl
  | _ :: xs, n + 1, i + 1, h =>
      getD_set_ne d a xs n i (fun he => h (by rw [he]))

/-- Appending new arrays leaves existing slots unchanged. -/
theorem getD_append_left {α : Type} (d : α) :
    ∀ (l l2 : List α) (i : ℕ), i < l.length → (l ++ l2).getD i d = l.getD i d
  | _ :: _, _, 0, _ => rfl
  | _ :: xs, l2, i + 1, h => getD_append_left d xs l2 i (Nat.lt_of_succ_lt_succ h)
  | [], _, _, h => absurd h (by simp)

/-- The scaling loop, which only ever writes the matrix slot `fresh`,
preserves all vectors and every other matrix slot. -/
theorem foldl_setMat_preserve (fresh : ℕ) (F : Heap → ℕ → List (List NF)) :
    ∀ (l : List ℕ) (h0 : Heap),
      ((l.foldl (fun hh ii => hh.setMat fresh (F hh ii)) h0).vecs = h0.vecs) ∧
      (∀ i, i ≠ fresh →
        (l.foldl (fun hh ii => hh.setMat fresh (F hh ii)) h0).mats.getD i [] =
          h0.mats.getD i [])
  | [], _ => ⟨rfl, fun _ _ => rfl⟩
  | x :: xs, h0 => by
      have ih := foldl_setMat_preserve fresh F xs (h0.setMat fresh (F h0 x))
      refine ⟨?_, ?_⟩
      · rw [List.foldl_cons, ih.1]; rfl
      · intro i hi
        rw [List.foldl_cons, ih.2 i hi]
        exact getD_set_ne [] _ h0.mats fresh i hi

/-- Claim C10 (confirmed, heap model).  Calling `bulk_dist` leaves every
array the record references unchanged: boolean indexing copies the
filtered matrix into a fresh slot and the in-place scaling loop writes
only that fresh slot, so `dists`, `min_depth`, `max_depth` and `layer`
dereference identically before and after the call. -/
theorem bulk_dist_frame (h : Heap) (r : GSRecH)
    (hd : r.dists < h.mats.length) :
    ((bulkDistH h r).1.vecs = h.vecs) ∧
    (∀ i, i < h.mats.length → (bulkDistH h r).1.getMat i = h.getMat i) ∧
    ((bulkDistH h r).1.getMat r.dists = h.getMat r.dists) ∧
    ((bulkDistH h r).1.getVec r.min_depth = h.getVec r.min_depth) ∧
    ((bulkDistH h r).1.getVec r.max_depth = h.getVec r.max_depth) ∧
    ((bulkDistH h r).1.getVec r.layer = h.getVec r.layer) := by
  have hmain : ((bulkDistH h r).1.vecs = h.vecs) ∧
      ∀ i, i < h.mats.length →
        (bulkDistH h r).1.mats.getD i [] = h.mats.getD i [] := by
    simp only [bulkDistH]
    split
    · have hp := foldl_setMat_preserve h.mats.length
        (fun hh ii =>
          setColScaled (hh.getMat h.mats.length) ii
            ((List.zipWith NF.sub (h.getVec r.max_depth) (h.getVec r.min_depth)).getD ii
              NF.nan)
            (sumNF (List.zipWith NF.sub (h.getVec r.max_depth) (h.getVec r.min_depth))))
      refine ⟨?_, ?_⟩
      · rw [(hp _ _).1]
      · intro i hi
        rw [(hp _ _).2 i (Nat.ne_of_lt hi)]
        exact getD_append_left [] h.mats _ i hi
    · exact ⟨rfl, fun i hi => getD_append_left [] h.mats _ i hi⟩
  refine ⟨hmain.1, ?_, ?_, ?_, ?_, ?_⟩
  · intro i hi
    show (bulkDistH h r).1.mats.getD i [] = h.mats.getD i []
    exact hmain.2 i hi
  · exact hmain.2 r.dists hd
  · show (bulkDistH h r).1.vecs.getD r.min_depth [] = h.vecs.getD r.min_depth []
    rw [hmain.1]
  · show (bulkDistH h r).1.vecs.getD r.max_depth [] = h.vecs.getD r.max_depth []
    rw [hmain.1]
  · show (bulkDistH h r).1.vecs.getD r.layer [] = h.vecs.getD r.layer []
    rw [hmain.1]

/-- Witness for C10 on the concrete heap `heap10`. -/
theorem bulk_dist_frame_witness :
    (bulkDistH heap10 rech10).1.getMat 0 = heap10.getMat 0 :=
  (bulk_dist_frame heap10 rech10 (by decide)).2.2.1

/-- Nonnegative finite values are finite. -/
theorem NF.isVal_of_isNNVal {x : NF} (h : NF.isNNVal x = true) : NF.isVal x = true := by
  cases x <;> simp_all [NF.isNNVal, NF.isVal]

/-- Nonnegative finite values carry a nonnegative rational. -/
theorem NF.toQ_nonneg {x : NF} (h : NF.isNNVal x = true) : 0 ≤ x.toQ := by
  cases x <;> simp_all [NF.isNNVal, NF.toQ]

/-- Finite values are recovered from their rational. -/
theorem NF.val_toQ {x : NF} (h : NF.isVal x = true) : NF.val x.toQ = x := by
  cases x <;> simp_all [NF.isVal, NF.toQ]

/-- Finite values are not `nan`. -/
theorem NF.not_isnan_of_isVal {x : NF} (h : NF.isVal x = true) : NF.isnan x = false := by
  cases x <;> simp_all [NF.isVal, NF.isnan]

/-- Addition of finite values is exact rational addition. -/
theorem NF.add_val_val (a b : ℚ) : NF.add (NF.val a) (NF.val b) = NF.val (a + b) := by
  show NF.val (qadd a b) = NF.val (a + b)
  rw [qadd_eq]

/-- Multiplication of finite values is exact rational multiplication. -/
theorem NF.mul_val_val (a b : ℚ) : NF.mul (NF.val a) (NF.val b) = NF.val (a * b) := by
  show NF.val (qmul a b) = NF.val (a * b)
  rw [qmul_eq]

/-- Subtraction of finite values is exact rational subtraction. -/
theorem NF.sub_val_val (a b : ℚ) : NF.sub (NF.val a) (NF.val b) = NF.val (a - b) := by
  show NF.add (NF.val a) (NF.val (qneg b)) = NF.val (a - b)
  rw [qneg_eq, NF.add_val_val]
  ring_nf

/-- Division of finite values with nonzero divisor is exact. -/
theorem NF.div_val_val_ne (a b : ℚ) (hb : ¬ b = 0) :
    NF.div (NF.val a) (NF.val b) = NF.val (a / b) := by
  show (if b = 0 then _ else NF.val (qdiv a b)) = _
  rw [if_neg hb, qdiv_eq]

/-- numpy sum of a vector of finite values is the exact rational sum. -/
theorem sumNF_val : ∀ xs : List NF, (∀ x ∈ xs, NF.isVal x = true) →
    sumNF xs = NF.val ((xs.map NF.toQ).sum)
  | [], _ => rfl
  | x :: xs, h => by
      have hx : NF.isVal x = true := h x (List.mem_cons_self x xs)
      have ih := sumNF_val xs (fun y hy => h y (List.mem_cons_of_mem _ hy))
      show NF.add x (sumNF xs) = _
      rw [ih, ← NF.val_toQ hx, NF.add_val_val]
      rfl

/-- In-range `getD` produces a member of the list. -/
theorem getD_mem {α : Type} (d : α) :
    ∀ (l : List α) (n : ℕ), n < l.length → l.getD n d ∈ l
  | x :: xs, 0, _ => List.mem_cons_self x xs
  | x :: xs, n + 1, h =>
      List.mem_cons_of_mem x (getD_mem d xs n (Nat.lt_of_succ_lt_succ h))
  | [], _, h => absurd h (by simp)

/-- Sums distribute over pointwise addition. -/
theorem list_sum_map_add {α : Type} (f g : α → ℚ) :
    ∀ l : List α, (l.map (fun x => f x + g x)).sum = (l.map f).sum + (l.map g).sum
  | [] => by simp
  | x :: xs => by
      simp only [List.map_cons, List.sum_cons, list_sum_map_add f g xs]
      ring

/-- Sums commute with division by a constant. -/
theorem list_sum_map_div (k : ℚ) :
    ∀ l : List ℚ, (l.map (fun x => x / k)).sum = l.sum / k
  | [] => by simp
  | x :: xs => by
      simp only [List.map_cons, List.sum_cons, list_sum_map_div k xs]
      ring

/-- Sums commute with multiplication by a constant. -/
theorem list_sum_smul (c : ℚ) :
    ∀ l : List ℚ, (l.map (fun x => c * x)).sum = c * l.sum
  | [] => by simp
  | x :: xs => by
      simp only [List.map_cons, List.sum_cons, list_sum_smul c xs]
      ring

/-- Reading every index of a list in order reproduces the list. -/
theorem map_range_getD {α : Type} (d : α) :
    ∀ l : List α, (List.range l.length).map (fun b => l.getD b d) = l
  | [] => rfl
  | x :: xs => by
      rw [show (x :: xs).length = xs.length + 1 from rfl, List.range_succ_eq_map]
      simp only [List.map_cons, List.getD_cons_zero, List.map_map]
      congr 1
      show (List.range xs.length).map (fun b => xs.getD b d) = xs
      exact map_range_getD d xs

/-- Fubini for the distribution matrix: summing the per-bin row sums over
all bins equals summing the per-sample column sums, when every column
has the full bin count. -/
theorem sum_rows_eq_total (M : ℕ) :
    ∀ dists : List (List NF), (∀ col ∈ dists, col.length = M) →
      ((List.range M).map (fun b =>
        (dists.map (fun c => NF.toQ (c.getD b NF.nan))).sum)).sum =
      (dists.map (fun col => ((col.map NF.toQ).sum))).sum
  | [], _ => by simp
  | c :: cs, h => by
      have hc : c.length = M := h c (List.mem_cons_self c cs)
      have ih := sum_rows_eq_total M cs (fun col hcol => h col (List.mem_cons_of_mem _ hcol))
      simp only [List.map_cons, List.sum_cons]
      rw [show (fun b => (NF.toQ (c.getD b NF.nan) +
          (cs.map (fun c2 => NF.toQ (c2.getD b NF.nan))).sum)) =
        (fun b => (fun b2 => NF.toQ (c.getD b2 NF.nan)) b +
          (fun b2 => (cs.map (fun c2 => NF.toQ (c2.getD b2 NF.nan))).sum) b) from rfl]
      rw [list_sum_map_add, ih]
      congr 1
      rw [← hc]
      have := map_range_getD NF.nan c
      calc ((List.range c.length).map (fun b => NF.toQ (c.getD b NF.nan))).sum
          = (((List.range c.length).map (fun b => c.getD b NF.nan)).map NF.toQ).sum := by
            rw [List.map_map]; rfl
        _ = ((c.map NF.toQ)).sum := by rw [this]

/-- Unfolding of numpy boolean indexing on a cons cell. -/
theorem maskFilter_cons {α : Type} (p : NF → Bool) (x : α) (xs : List α)
    (m : NF) (ms : List NF) :
    maskFilter (x :: xs) (m :: ms) p =
      if p m then x :: maskFilter xs ms p else maskFilter xs ms p := by
  cases hp : p m <;> simp [maskFilter, List.zip_cons_cons, List.filterMap_cons, hp]

/-- Boolean indexing only selects existing columns. -/
theorem maskFilter_subset {α : Type} (p : NF → Bool) (xs : List α) (mask : List NF) :
    ∀ y ∈ maskFilter xs mask p, y ∈ xs := by
  intro y hy
  unfold maskFilter at hy
  obtain ⟨c, hc, hcy⟩ := List.mem_filterMap.mp hy
  have hcx : c.1 ∈ xs := (List.of_mem_zip hc).1
  by_cases hp : p c.2
  · rw [if_pos hp] at hcy
    cases hcy
    exact hcx
  · rw [if_neg hp] at hcy
    cases hcy

/-- Boolean indexing never enlarges the array. -/
theorem maskFilter_length_le {α : Type} (p : NF → Bool) :
    ∀ (xs : List α) (mask : List NF),
      (maskFilter xs mask p).length ≤ xs.length
  | [], _ => by simp [maskFilter]
  | _ :: _, [] => by simp [maskFilter]
  | x :: xs, m :: ms => by
      rw [maskFilter_cons]
      cases hp : p m with
      | true =>
        simp only [if_pos rfl, List.length_cons]
        exact Nat.succ_le_succ (maskFilter_length_le p xs ms)
      | false =>
        rw [if_neg Bool.false_ne_true]
        exact Nat.le_succ_of_le (maskFilter_length_le p xs ms)

/-- A position passing the mask survives boolean indexing at some
(earlier or equal) position, with the same value. -/
theorem maskFilter_getD {α : Type} (d : α) (p : NF → Bool) :
    ∀ (xs : List α) (mask : List NF) (j : ℕ), j < xs.length → j < mask.length →
      p (mask.getD j NF.nan) = true →
      ∃ q, q < (maskFilter xs mask p).length ∧
        (maskFilter xs mask p).getD q d = xs.getD j d
  | [], _, _, hj, _, _ => absurd hj (by simp)
  | _ :: _, [], _, _, hm, _ => absurd hm (by simp)
  | x :: xs, m :: ms, 0, _, _, hp => by
      rw [maskFilter_cons, if_pos (by exact hp)]
      exact ⟨0, Nat.succ_pos _, rfl⟩
  | x :: xs, m :: ms, j + 1, hj, hm, hp => by
      obtain ⟨q, hq, hqe⟩ := maskFilter_getD d p xs ms j
        (Nat.lt_of_succ_lt_succ hj) (Nat.lt_of_succ_lt_succ hm) hp
      rw [maskFilter_cons]
      cases hpm : p m with
      | true =>
        simp only [if_pos rfl, List.length_cons]
        exact ⟨q + 1, Nat.succ_lt_succ hq, hqe⟩
      | false =>
        rw [if_neg Bool.false_ne_true]
        exact ⟨q, hq, hqe⟩

/-- The indexed map preserves length. -/
theorem mapIdxFrom_length {α β : Type} (f : ℕ → α → β) :
    ∀ (n : ℕ) (l : List α), (mapIdxFrom f n l).length = l.length
  | _, [] => rfl
  | n, _ :: xs => by
      show (mapIdxFrom f (n + 1) xs).length + 1 = xs.length + 1
      rw [mapIdxFrom_length f (n + 1) xs]

/-- Pointwise evaluation of the indexed map. -/
theorem mapIdxFrom_getD {α β : Type} (f : ℕ → α → β) (d : α) (d2 : β) :
    ∀ (n : ℕ) (l : List α) (i : ℕ), i < l.length →
      (mapIdxFrom f n l).getD i d2 = f (n + i) (l.getD i d)
  | _, [], _, hi => absurd hi (by simp)
  | n, x :: xs, 0, _ => by simp [mapIdxFrom]
  | n, x :: xs, i + 1, hi => by
      show (mapIdxFrom f (n + 1) xs).getD i d2 = f (n + (i + 1)) (xs.getD i d)
      rw [mapIdxFrom_getD f d d2 (n + 1) xs i (Nat.lt_of_succ_lt_succ hi)]
      congr 1
      omega

/-- The indexed map from zero preserves length. -/
theorem mapWithIdx_length {α β : Type} (f : ℕ → α → β) (l : List α) :
    (mapWithIdx f l).length = l.length :=
  mapIdxFrom_length f 0 l

/-- Pointwise evaluation of the indexed map from zero. -/
theorem mapWithIdx_getD {α β : Type} (f : ℕ → α → β) (d : α) (d2 : β)
    (l : List α) (i : ℕ) (hi : i < l.length) :
    (mapWithIdx f l).getD i d2 = f i (l.getD i d) := by
  rw [mapWithIdx, mapIdxFrom_getD f d d2 0 l i hi, Nat.zero_add]

/-- Members of an indexed map come from an index of the source list. -/
theorem mapWithIdx_mem {α β : Type} (f : ℕ → α → β) (d : α) (l : List α) :
    ∀ y ∈ mapWithIdx f l, ∃ i, i < l.length ∧ y = f i (l.getD i d) := by
  intro y hy
  obtain ⟨i, hi, hiy⟩ := List.mem_iff_getElem.mp hy
  rw [mapWithIdx_length] at hi
  refine ⟨i, hi, ?_⟩
  have hg : (mapWithIdx f l).getD i y = y := by
    rw [List.getD_eq_getElem?_getD, List.getElem?_eq_getElem (by rw [mapWithIdx_length]; exact hi)]
    simp [hiy]
  rw [← hg, mapWithIdx_getD f d y l i hi]

/-- Core of claim C6: the nan-aware column average of a matrix of
nonnegative finite entries with full columns, at least one of nonzero
sum, rescales to a vector summing to exactly 100. -/
theorem normalized_sum_100 (M : ℕ) (dists : List (List NF))
    (hlen : ∀ col ∈ dists, col.length = M)
    (hnn : ∀ col ∈ dists, ∀ x ∈ col, NF.isNNVal x = true)
    (hex : ∃ col ∈ dists, sumNF col ≠ NF.val 0) :
    sumNF ((nanmeanRows M dists).map
      (fun x => NF.div (NF.mul (NF.val 100) x)
        (sumNF (nanmeanRows M dists)))) = NF.val 100 := by
  obtain ⟨col0, hcol0, hs0⟩ := hex
  have hne : dists ≠ [] := by
    intro h
    rw [h] at hcol0
    exact absurd hcol0 (by simp)
  have hK : dists.length ≠ 0 := fun h => hne (List.length_eq_zero.mp h)
  have hKq : ((dists.length : ℚ)) ≠ 0 := Nat.cast_ne_zero.mpr hK
  have hrow : ∀ b ∈ List.range M,
      nanmeanRow (dists.map (fun c => c.getD b NF.nan)) =
        NF.val ((dists.map (fun c => NF.toQ (c.getD b NF.nan))).sum /
          (dists.length : ℚ)) := by
    intro b hb
    have hbM : b < M := List.mem_range.mp hb
    have hv : ∀ x ∈ dists.map (fun c => c.getD b NF.nan), NF.isVal x = true := by
      intro x hx
      obtain ⟨c, hc, hcx⟩ := List.mem_map.mp hx
      have hbc : b < c.length := by rw [hlen c hc]; exact hbM
      have hxc : x ∈ c := by rw [← hcx]; exact getD_mem NF.nan c b hbc
      exact NF.isVal_of_isNNVal (hnn c hc x hxc)
    have hfilter : (dists.map (fun c => c.getD b NF.nan)).filter
        (fun x => !NF.isnan x) = dists.map (fun c => c.getD b NF.nan) := by
      apply List.filter_eq_self.mpr
      intro x hx
      rw [NF.not_isnan_of_isVal (hv x hx)]
      rfl
    simp only [nanmeanRow]
    rw [hfilter, sumNF_val _ hv, List.map_map, List.length_map,
      NF.div_val_val_ne _ _ hKq]
    rfl
  have hbd : nanmeanRows M dists = (List.range M).map (fun b =>
      NF.val ((dists.map (fun c => NF.toQ (c.getD b NF.nan))).sum /
        (dists.length : ℚ))) := by
    unfold nanmeanRows
    exact List.map_congr_left hrow
  have hcolnn : ∀ q ∈ dists.map (fun col => ((col.map NF.toQ).sum)), 0 ≤ q := by
    intro q hq
    obtain ⟨col, hcol, hcq⟩ := List.mem_map.mp hq
    rw [← hcq]
    apply List.sum_nonneg
    intro y hy
    obtain ⟨x, hx, hxy⟩ := List.mem_map.mp hy
    rw [← hxy]
    exact NF.toQ_nonneg (hnn col hcol x hx)
  have hcol0v : sumNF col0 = NF.val ((col0.map NF.toQ).sum) :=
    sumNF_val col0 (fun x hx => NF.isVal_of_isNNVal (hnn col0 hcol0 x hx))
  have hpos0 : 0 < (col0.map NF.toQ).sum := by
    have hne0 : (col0.map NF.toQ).sum ≠ 0 := by
      intro h
      apply hs0
      rw [hcol0v, h]
    have hge : 0 ≤ (col0.map NF.toQ).sum :=
      hcolnn _ (List.mem_map_of_mem _ hcol0)
    exact lt_of_le_of_ne hge (Ne.symm hne0)
  have htotpos : 0 < (dists.map (fun col => ((col.map NF.toQ).sum))).sum := by
    have hle := List.single_le_sum hcolnn _ (List.mem_map_of_mem _ hcol0)
    linarith
  have hswap := sum_rows_eq_total M dists hlen
  have hSsum : ((List.range M).map (fun b =>
      (dists.map (fun c => NF.toQ (c.getD b NF.nan))).sum / (dists.length : ℚ))).sum =
      (dists.map (fun col => ((col.map NF.toQ).sum))).sum / (dists.length : ℚ) := by
    calc ((List.range M).map (fun b =>
          (dists.map (fun c => NF.toQ (c.getD b NF.nan))).sum / (dists.length : ℚ))).sum
        = (((List.range M).map (fun b =>
            (dists.map (fun c => NF.toQ (c.getD b NF.nan))).sum)).map
              (fun x => x / (dists.length : ℚ))).sum := by
          rw [List.map_map]
          rfl
      _ = ((List.range M).map (fun b =>
            (dists.map (fun c => NF.toQ (c.getD b NF.nan))).sum)).sum /
              (dists.length : ℚ) := list_sum_map_div _ _
      _ = _ := by rw [hswap]
  have hSpos : 0 < (dists.map (fun col => ((col.map NF.toQ).sum))).sum /
      (dists.length : ℚ) := by
    apply div_pos htotpos
    exact_mod_cast Nat.pos_of_ne_zero hK
  have hSne : (dists.map (fun col => ((col.map NF.toQ).sum))).sum /
      (dists.length : ℚ) ≠ 0 := ne_of_gt hSpos
  have hall : ∀ x ∈ (List.range M).map (fun b =>
      NF.val ((dists.map (fun c => NF.toQ (c.getD b NF.nan))).sum /
        (dists.length : ℚ))), NF.isVal x = true := by
    intro x hx
    obtain ⟨b, hb, hbx⟩ := List.mem_map.mp hx
    rw [← hbx]
    rfl
  have hsval : sumNF (nanmeanRows M dists) =
      NF.val ((dists.map (fun col => ((col.map NF.toQ).sum))).sum /
        (dists.length : ℚ)) := by
    rw [hbd, sumNF_val _ hall, List.map_map]
    show NF.val (((List.range M).map (fun b =>
      (dists.map (fun c => NF.toQ (c.getD b NF.nan))).sum / (dists.length : ℚ))).sum) = _
    rw [hSsum]
  rw [hsval, hbd, List.map_map]
  have hptwise : ∀ b ∈ List.range M,
      ((fun x => NF.div (NF.mul (NF.val 100) x)
          (NF.val ((dists.map (fun col => ((col.map NF.toQ).sum))).sum /
            (dists.length : ℚ)))) ∘
        (fun b => NF.val ((dists.map (fun c => NF.toQ (c.getD b NF.nan))).sum /
          (dists.length : ℚ)))) b =
      NF.val ((100 / ((dists.map (fun col => ((col.map NF.toQ).sum))).sum /
          (dists.length : ℚ))) *
        ((dists.map (fun c => NF.toQ (c.getD b NF.nan))).sum / (dists.length : ℚ))) := by
    intro b _
    show NF.div (NF.mul (NF.val 100)
        (NF.val ((dists.map (fun c => NF.toQ (c.getD b NF.nan))).sum /
          (dists.length : ℚ))))
        (NF.val ((dists.map (fun col => ((col.map NF.toQ).sum))).sum /
          (dists.length : ℚ))) = _
    rw [NF.mul_val_val, NF.div_val_val_ne _ _ hSne]
    congr 1
    ring
  rw [List.map_congr_left hptwise]
  have hall2 : ∀ x ∈ (List.range M).map (fun b =>
      NF.val ((100 / ((dists.map (fun col => ((col.map NF.toQ).sum))).sum /
          (dists.length : ℚ))) *
        ((dists.map (fun c => NF.toQ (c.getD b NF.nan))).sum / (dists.length : ℚ)))),
      NF.isVal x = true := by
    intro x hx
    obtain ⟨b, hb, hbx⟩ := List.mem_map.mp hx
    rw [← hbx]
    rfl
  rw [sumNF_val _ hall2, List.map_map]
  show NF.val (((List.range M).map (fun b =>
      (100 / ((dists.map (fun col => ((col.map NF.toQ).sum))).sum /
          (dists.length : ℚ))) *
        ((dists.map (fun c => NF.toQ (c.getD b NF.nan))).sum /
          (dists.length : ℚ)))).sum) = NF.val 100
  congr 1
  calc ((List.range M).map (fun b =>
        (100 / ((dists.map (fun col => ((col.map NF.toQ).sum))).sum /
            (dists.length : ℚ))) *
          ((dists.map (fun c => NF.toQ (c.getD b NF.nan))).sum /
            (dists.length : ℚ)))).sum
      = (((List.range M).map (fun b =>
          (dists.map (fun c => NF.toQ (c.getD b NF.nan))).sum /
            (dists.length : ℚ))).map (fun x =>
          (100 / ((dists.map (fun col => ((col.map NF.toQ).sum))).sum /
            (dists.length : ℚ))) * x)).sum := by
        rw [List.map_map]
        rfl
    _ = (100 / ((dists.map (fun col => ((col.map NF.toQ).sum))).sum /
          (dists.length : ℚ))) *
        ((List.range M).map (fun b =>
          (dists.map (fun c => NF.toQ (c.getD b NF.nan))).sum /
            (dists.length : ℚ))).sum := list_sum_smul _ _
    _ = (100 / ((dists.map (fun col => ((col.map NF.toQ).sum))).sum /
          (dists.length : ℚ))) *
        ((dists.map (fun col => ((col.map NF.toQ).sum))).sum /
          (dists.length : ℚ)) := by rw [hSsum]
    _ = 100 := div_mul_cancel₀ 100 hSne

/-- Scaling a finite value by weight over total is exact. -/
theorem scaled_val (w T q : ℚ) (hT : ¬ T = 0) :
    NF.div (NF.mul (NF.val q) (NF.val w)) (NF.val T) = NF.val (q * w / T) := by
  rw [NF.mul_val_val, NF.div_val_val_ne _ _ hT]

/-- Scaling a nonnegative column by a nonnegative weight over a positive total keeps it nonnegative. -/
theorem scaled_col_nn (colj : List NF) (w T : ℚ)
    (hv : ∀ x ∈ colj, NF.isNNVal x = true) (hw : 0 ≤ w) (hT : 0 < T) :
    ∀ y ∈ colj.map (fun x => NF.div (NF.mul x (NF.val w)) (NF.val T)),
      NF.isNNVal y = true := by
  intro y hy
  obtain ⟨x, hx, hxy⟩ := List.mem_map.mp hy
  obtain ⟨q, hq⟩ : ∃ q, x = NF.val q := by
    have := hv x hx
    cases x <;> simp_all [NF.isNNVal]
  have hq0 : 0 ≤ q := by
    have := hv x hx
    rw [hq] at this
    simpa [NF.isNNVal] using this
  rw [← hxy, hq, scaled_val w T q (ne_of_gt hT)]
  show decide (0 ≤ q * w / T) = true
  simp only [decide_eq_true_eq]
  positivity

/-- Sum of a column scaled by weight over total. -/
theorem sum_scaled_col (colj : List NF) (w T : ℚ)
    (hv : ∀ x ∈ colj, NF.isNNVal x = true) (hT : ¬ T = 0) :
    sumNF (colj.map (fun x => NF.div (NF.mul x (NF.val w)) (NF.val T))) =
      NF.val ((w / T) * ((colj.map NF.toQ).sum)) := by
  have hscale : ∀ x ∈ colj,
      NF.div (NF.mul x (NF.val w)) (NF.val T) = NF.val ((w / T) * NF.toQ x) := by
    intro x hx
    obtain ⟨q, hq⟩ : ∃ q, x = NF.val q := by
      have := hv x hx
      cases x <;> simp_all [NF.isNNVal]
    subst hq
    rw [scaled_val w T q hT]
    show NF.val (q * w / T) = NF.val ((w / T) * q)
    congr 1
    ring
  rw [List.map_congr_left hscale]
  rw [sumNF_val _ (by
    intro x hx
    obtain ⟨y, hy, hxy⟩ := List.mem_map.mp hx
    rw [← hxy]
    rfl)]
  rw [List.map_map]
  congr 1
  calc (colj.map (fun x => (w / T) * NF.toQ x)).sum
      = ((colj.map NF.toQ).map (fun x => (w / T) * x)).sum := by
        rw [List.map_map]
        rfl
    _ = (w / T) * (colj.map NF.toQ).sum := list_sum_smul _ _

/-- Claim C6 (amended).  `bulk_dist` returns a vector summing to exactly
100 whenever every distribution entry is a nonnegative number (no
missing values), at least one qualifying sample (layer code > 0) has
nonzero total weight, the per-sample vectors have matching lengths, and
every sample's depth interval is present with `min_depth < max_depth`
(the counterexample shows zero-thickness intervals defeat the claim as
stated). -/
theorem bulk_dist_sum100_amended (rec : GSRecord)
    (hwf1 : ∀ col ∈ rec.dists, col.length = rec.bins.length)
    (hwf2 : rec.layer.length = rec.dists.length)
    (hwf3 : rec.min_depth.length = rec.dists.length)
    (hwf4 : rec.max_depth.length = rec.dists.length)
    (hnn : ∀ col ∈ rec.dists, ∀ x ∈ col, NF.isNNVal x = true)
    (hdepth : ∀ i, i < rec.dists.length →
      ∃ a b : ℚ, rec.min_depth.getD i NF.nan = NF.val a ∧
        rec.max_depth.getD i NF.nan = NF.val b ∧ a < b)
    (hex : ∃ j, j < rec.dists.length ∧
      NF.blt (NF.val 0) (rec.layer.getD j NF.nan) = true ∧
      sumNF (rec.dists.getD j []) ≠ NF.val 0) :
    sumNF (bulk_dist rec) = NF.val 100 := by
  obtain ⟨j, hj, hjq, hjs⟩ := hex
  obtain ⟨p, hp, hpe⟩ := maskFilter_getD [] (fun L => NF.blt (NF.val 0) L)
    rec.dists rec.layer j hj (by rw [hwf2]; exact hj) hjq
  have hsub := maskFilter_subset (fun L => NF.blt (NF.val 0) L) rec.dists rec.layer
  have hflen : ∀ col ∈ maskFilter rec.dists rec.layer (fun L => NF.blt (NF.val 0) L),
      col.length = rec.bins.length := fun col hcol => hwf1 col (hsub col hcol)
  have hfnn : ∀ col ∈ maskFilter rec.dists rec.layer (fun L => NF.blt (NF.val 0) L),
      ∀ x ∈ col, NF.isNNVal x = true := fun col hcol => hnn col (hsub col hcol)
  have hKle : (maskFilter rec.dists rec.layer (fun L => NF.blt (NF.val 0) L)).length ≤
      rec.dists.length := maskFilter_length_le _ _ _
  -- the j-th column's rational sum is positive
  have hjmem : rec.dists.getD j [] ∈ rec.dists := getD_mem [] rec.dists j hj
  have hjv : sumNF (rec.dists.getD j []) =
      NF.val (((rec.dists.getD j []).map NF.toQ).sum) :=
    sumNF_val _ (fun x hx => NF.isVal_of_isNNVal (hnn _ hjmem x hx))
  have hjQpos : 0 < ((rec.dists.getD j []).map NF.toQ).sum := by
    have hne0 : ((rec.dists.getD j []).map NF.toQ).sum ≠ 0 := by
      intro h
      apply hjs
      rw [hjv, h]
    have hge : 0 ≤ ((rec.dists.getD j []).map NF.toQ).sum := by
      apply List.sum_nonneg
      intro y hy
      obtain ⟨x, hx, hxy⟩ := List.mem_map.mp hy
      rw [← hxy]
      exact NF.toQ_nonneg (hnn _ hjmem x hx)
    exact lt_of_le_of_ne hge (Ne.symm hne0)
  simp only [bulk_dist]
  by_cases hc : (rec.min_depth.any NF.isnan) = false ∧ 1 < rec.sample_id.length
  · rw [if_pos hc]
    -- the depth-difference vector consists of positive rationals
    have hdlen : (List.zipWith NF.sub rec.max_depth rec.min_depth).length =
        rec.dists.length := by
      rw [List.length_zipWith, hwf3, hwf4, Nat.min_self]
    have hdval : ∀ i, i < rec.dists.length →
        ∃ dq : ℚ, (List.zipWith NF.sub rec.max_depth rec.min_depth).getD i NF.nan =
          NF.val dq ∧ 0 < dq := by
      intro i hi
      obtain ⟨a, b, hma, hmb, hab⟩ := hdepth i hi
      refine ⟨b - a, ?_, by linarith⟩
      rw [getD_zipWith NF.sub rec.max_depth rec.min_depth i
        (by rw [hwf4]; exact hi) (by rw [hwf3]; exact hi), hma, hmb, NF.sub_val_val]
    have hdall : ∀ x ∈ List.zipWith NF.sub rec.max_depth rec.min_depth,
        NF.isVal x = true ∧ 0 < NF.toQ x := by
      intro x hx
      obtain ⟨i, hi, hix⟩ := List.mem_iff_getElem.mp hx
      have hgd : (List.zipWith NF.sub rec.max_depth rec.min_depth).getD i NF.nan = x := by
        rw [List.getD_eq_getElem?_getD, List.getElem?_eq_getElem hi]
        simp [hix]
      have hi2 : i < rec.dists.length := by rw [← hdlen]; exact hi
      obtain ⟨dq, hdq, hdqpos⟩ := hdval i hi2
      rw [hgd] at hdq
      rw [hdq]
      exact ⟨rfl, by simpa [NF.toQ] using hdqpos⟩
    have hdne : List.zipWith NF.sub rec.max_depth rec.min_depth ≠ [] := by
      intro h
      have := hdlen
      rw [h] at this
      simp at this
      omega
    have hTsum : sumNF (List.zipWith NF.sub rec.max_depth rec.min_depth) =
        NF.val (((List.zipWith NF.sub rec.max_depth rec.min_depth).map NF.toQ).sum) :=
      sumNF_val _ (fun x hx => (hdall x hx).1)
    have hTpos : 0 < ((List.zipWith NF.sub rec.max_depth rec.min_depth).map NF.toQ).sum := by
      apply List.sum_pos
      · intro y hy
        obtain ⟨x, hx, hxy⟩ := List.mem_map.mp hy
        rw [← hxy]
        exact (hdall x hx).2
      · intro h
        exact hdne (List.map_eq_nil.mp h)
    apply normalized_sum_100
    · intro col hcol
      obtain ⟨i, hiK, hColEq⟩ := mapWithIdx_mem _ [] _ col hcol
      rw [hColEq, List.length_map]
      exact hflen _ (getD_mem [] _ i hiK)
    · intro col hcol
      obtain ⟨i, hiK, hColEq⟩ := mapWithIdx_mem _ [] _ col hcol
      have hiN : i < rec.dists.length := lt_of_lt_of_le hiK hKle
      obtain ⟨dq, hdq, hdqpos⟩ := hdval i hiN
      rw [hColEq, hdq, hTsum]
      exact scaled_col_nn _ dq _ (hfnn _ (getD_mem [] _ i hiK)) (le_of_lt hdqpos) hTpos
    · -- the scaled qualifying column still has nonzero sum
      have hpK : p < (mapWithIdx (fun ii col => col.map (fun x =>
          NF.div (NF.mul x ((List.zipWith NF.sub rec.max_depth rec.min_depth).getD ii NF.nan))
            (sumNF (List.zipWith NF.sub rec.max_depth rec.min_depth))))
          (maskFilter rec.dists rec.layer (fun L => NF.blt (NF.val 0) L))).length := by
        rw [mapWithIdx_length]
        exact hp
      refine ⟨_, getD_mem [] _ p hpK, ?_⟩
      rw [mapWithIdx_getD _ [] [] _ p hp]
      have hpN : p < rec.dists.length := lt_of_lt_of_le hp hKle
      obtain ⟨dq, hdq, hdqpos⟩ := hdval p hpN
      rw [hpe, hdq, hTsum,
        sum_scaled_col _ dq _ (fun x hx => hnn _ hjmem x hx) (ne_of_gt hTpos)]
      intro hzero
      have : (dq / ((List.zipWith NF.sub rec.max_depth rec.min_depth).map NF.toQ).sum) *
          ((rec.dists.getD j []).map NF.toQ).sum = 0 := by
        injection hzero
      have hprodpos : 0 < (dq /
          ((List.zipWith NF.sub rec.max_depth rec.min_depth).map NF.toQ).sum) *
          ((rec.dists.getD j []).map NF.toQ).sum := by
        apply mul_pos (div_pos hdqpos hTpos) hjQpos
      linarith
  · rw [if_neg hc]
    exact normalized_sum_100 rec.bins.length _ hflen hfnn
      ⟨rec.dists.getD j [], by rw [← hpe]; exact getD_mem [] _ p hp,
        by rw [hjv]; intro h; injection h with h2; exact absurd h2 (ne_of_gt hjQpos)⟩

/-- Witness for the amended C6 on the well-formed record `rec6w`. -/
theorem bulk_dist_sum100_amended_witness :
    sumNF (bulk_dist rec6w) = NF.val 100 :=
  bulk_dist_sum100_amended rec6w (by decide) (by decide) (by decide) (by decide)
    (by decide)
    (by
      intro i hi
      have h1 : i < 1 := by simpa [rec6w] using hi
      have h0 : i = 0 := Nat.lt_one_iff.mp h1
      subst h0
      exact ⟨0, 1, rfl, rfl, by norm_num⟩)
    ⟨0, by decide, by decide, by decide⟩
